import Mathlib

/-!
Shallow embedding of the batch pipeline of `modules/batch_job.py` together
with the entry guard of `modules/analyze.py` (`run_analysis`), for checking
the natural-language specification claims about `run_batch_process`.

Files are modelled as an association list from structured paths
(`List String`, one component per path segment) to structured contents.
External AI capabilities (`transcribe`, `ai_precheck`, `ai_analyze`,
`json.loads`, sha256, clock) are parameters gathered in `Env`; everything
else is translated from the Python source.
-/

namespace Batch

/-- Python `re.split(r"(\d+)", s)` produces alternating non-digit / digit
tokens; digit tokens are converted with `int`.  `NTok` is one such token. -/
inductive NTok
  | str (s : String)
  | num (n : Nat)
deriving DecidableEq, Repr

/-- Raw token built during the right-to-left scan: the characters of one
maximal non-digit run or one maximal digit run. -/
inductive RTok
  | rstr (cs : List Char)
  | rnum (cs : List Char)
deriving DecidableEq, Repr

/-- Value of a digit run, as `int` computes it (decimal, leading zeros ok). -/
def natOfDigits (cs : List Char) : Nat :=
  cs.foldl (fun n c => 10 * n + (c.toNat - 48)) 0

/-- Split a character list into maximal alternating non-digit / digit runs,
mirroring `re.split(r"(\d+)", s)`: the result always starts and ends with a
(non-digit) `rstr` token, empty at the boundaries when the string starts or
ends with a digit. -/
def rtoks : List Char → List RTok
  | [] => [.rstr []]
  | c :: cs =>
    match c.isDigit, rtoks cs with
    | true, .rstr [] :: .rnum d :: t => .rstr [] :: .rnum (c :: d) :: t
    | true, r => .rstr [] :: .rnum [c] :: r
    | false, .rstr s :: t => .rstr (c :: s) :: t
    | false, r => .rstr [c] :: r

/-- `_nkey(s)`: `[int(t) if t.isdigit() else t for t in re.split(r"(\d+)", s)]`. -/
def nkey (s : String) : List NTok :=
  (rtoks s.data).map fun t =>
    match t with
    | .rstr cs => .str (String.mk cs)
    | .rnum cs => .num (natOfDigits cs)

/-- Python `<` on strings: lexicographic comparison of code points. -/
def strLt : List Char → List Char → Bool
  | [], [] => false
  | [], _ :: _ => true
  | _ :: _, [] => false
  | c :: cs, d :: ds =>
    if c.toNat < d.toNat then true
    else if d.toNat < c.toNat then false
    else strLt cs ds

/-- Strict comparison of one `nkey` token.  Tokens at even positions are
always strings and tokens at odd positions always numbers, so the
cross-type clauses are never exercised when two `nkey` values are compared
(in Python a cross-type comparison would raise; it is unreachable for
`nkey` keys). -/
def ntokLt : NTok → NTok → Bool
  | .str a, .str b => strLt a.data b.data
  | .num a, .num b => decide (a < b)
  | .str _, .num _ => true
  | .num _, .str _ => false

/-- Python `<` on token lists: lexicographic. -/
def nkeyLt : List NTok → List NTok → Bool
  | [], [] => false
  | [], _ :: _ => true
  | _ :: _, [] => false
  | a :: as, b :: bs =>
    if ntokLt a b then true
    else if ntokLt b a then false
    else nkeyLt as bs

/-- Boolean "≤" on filenames as Python's sort-by-key uses it (a stable sort
driven by `<` on the keys sorts ascending by the induced `≤`). -/
def nkeyLeB (a b : String) : Bool :=
  !nkeyLt (nkey b) (nkey a)

/-- Decimal digits of `n`, most significant first, accumulated into `acc`;
`fuel` bounds the recursion depth (`fuel = n` always suffices, since the
value is divided by ten at every step). -/
def natDigitsCore : Nat → Nat → List Char → List Char
  | _, 0, acc => acc
  | 0, _ + 1, acc => acc
  | fuel + 1, n + 1, acc =>
    natDigitsCore fuel ((n + 1) / 10) (Nat.digitChar ((n + 1) % 10) :: acc)

/-- Decimal rendering of a natural number (the digits Python prints). -/
def natRepr (n : Nat) : String :=
  if n = 0 then "0" else String.mk (natDigitsCore n n [])

/-- Decimal rendering of an integer (what Python `str`/`%d` prints). -/
def intRepr (n : Int) : String :=
  if n < 0 then "-" ++ natRepr n.natAbs else natRepr n.natAbs

/-- Python `f"{n:02d}"`: zero-pad the decimal rendering to width 2 (a sign
counts towards the width, so only single-digit non-negative values gain a
leading zero). -/
def fmt02 (n : Int) : String :=
  if 0 ≤ n ∧ n < 10 then "0" ++ intRepr n else intRepr n

/-- Python `pathlib` suffix of a file name: `name[i:]` for the last dot at
position `i` when `0 < i < len(name) - 1`, else the empty string. -/
def pySuffix (name : String) : String :=
  let cs := name.data
  match cs.reverse.findIdx? (· = '.') with
  | none => ""
  | some r =>
    let i := cs.length - 1 - r
    if 0 < i ∧ i < cs.length - 1 then String.mk (cs.drop i) else ""

/-- `str.lower()` (ASCII, which is all the compared suffixes contain). -/
def strToLower (s : String) : String :=
  String.mk (s.data.map Char.toLower)

/-- Recognized unit-file extensions (`{".wav", ".mp3", ".m4a"}`). -/
def EXTS : List String := [".wav", ".mp3", ".m4a"]

/-- The sort relation of `_list_segments`: `≤` on `_nkey` keys. -/
def nkeyLe (a b : String) : Prop :=
  nkeyLeB a b = true

instance : DecidableRel nkeyLe := fun a b => by
  unfold nkeyLe
  infer_instance

/-- `_list_segments`: keep the files with a recognized extension and sort
them by `_nkey` of the file name (Python `list.sort(key=...)` is a stable
sort driven by `<` on keys; a stable insertion sort on the induced `≤` has
the same observable behavior). -/
def list_segments (listing : List String) : List String :=
  (listing.filter fun f => EXTS.contains (strToLower (pySuffix f))).insertionSort nkeyLe

/-- A path, one component per directory level. -/
abbrev FPath := List String

def SEG_AUDIO_ROOT : FPath := ["output", "segments"]
def SEG_TEXT_ROOT : FPath := ["output", "segments_text"]
def FINAL_ROOT : FPath := ["output", "final"]
def LOGS_ROOT : FPath := ["output", "logs"]

def renderPath (p : FPath) : String :=
  String.intercalate "/" p

/-- `Path.name`: the final path component. -/
def pathName (p : FPath) : String :=
  p.getLastD ""

/-- Per-unit metadata record (`meta` dict of `run_batch_process`). -/
structure MetaRec where
  seg_id : String
  audio : String
  audio_sha256 : Option String := none
  pathsD : List (String × FPath) := []
  lens : Option (Nat × Nat × Nat) := none
  ok : Bool
  error : Option String := none
deriving DecidableEq, Repr

/-- The run manifest (`manifest` dict). -/
structure ManifestRec where
  job_id : String
  segments_dir : String
  created_at : String
  preview : Bool
  items : List MetaRec
  start_index : Int
  count : Nat
deriving DecidableEq, Repr

/-- Structured contents of a persisted file. -/
inductive FileContent
  | text (s : String)
  | meta (m : MetaRec)
  | manifestC (m : ManifestRec)
  | summaryJson (summary : String) (outline : List String) (todos : List String)
  | docx (paragraphs : List String)
deriving DecidableEq, Repr

/-- The file store: newest write first; reads take the first match. -/
abbrev FS := List (FPath × FileContent)

def FS.write (fs : FS) (p : FPath) (c : FileContent) : FS :=
  (p, c) :: fs

def FS.read (fs : FS) (p : FPath) : Option FileContent :=
  (fs.find? fun e => decide (e.1 = p)).map (·.2)

def FS.fexists (fs : FS) (p : FPath) : Bool :=
  (FS.read fs p).isSome

/-- JSON value, the shape `json.loads` hands to `parse_sections`. -/
inductive JVal
  | jstr (s : String)
  | jnum (n : Int)
  | jbool (b : Bool)
  | jnull
  | jarr (xs : List JVal)
  | jobj (kvs : List (String × JVal))
deriving BEq, Repr

/-- Python truthiness on JSON values. -/
def jTruthy : JVal → Bool
  | .jstr s => s ≠ ""
  | .jnum n => n ≠ 0
  | .jbool b => b
  | .jnull => false
  | .jarr xs => !xs.isEmpty
  | .jobj kvs => !kvs.isEmpty

mutual

/-- Python `str()` of a JSON value (containers rendered recursively as
Python would; only the scalar cases are ever reached by realistic model
output). -/
def pyStr : JVal → String
  | .jstr s => s
  | .jnum n => intRepr n
  | .jbool b => if b then "True" else "False"
  | .jnull => "None"
  | .jarr xs => "[" ++ String.intercalate ", " (pyStrList xs) ++ "]"
  | .jobj kvs => "\x7b" ++ String.intercalate ", " (pyStrObj kvs) ++ "\x7d"

/-- Renderings of the elements of a JSON array. -/
def pyStrList : List JVal → List String
  | [] => []
  | x :: xs => pyStr x :: pyStrList xs

/-- Renderings of the entries of a JSON object. -/
def pyStrObj : List (String × JVal) → List String
  | [] => []
  | (k, v) :: kvs => (k ++ ": " ++ pyStr v) :: pyStrObj kvs

end

/-- `x or y or ""` over optional JSON values: the first truthy value. -/
def firstTruthy (xs : List (Option JVal)) : Option JVal :=
  xs.foldr (fun x acc => match x with
    | some v => if jTruthy v then some v else acc
    | none => acc) none

/-- `_stringify_todo` of `modules/analyze.py`. -/
def stringify_todo (v : JVal) : String :=
  match v with
  | .jstr s => s.trim
  | .jobj kvs =>
    let pick (k1 k2 : String) : String :=
      match firstTruthy [kvs.lookup k1, kvs.lookup k2] with
      | some w => pyStr w
      | none => ""
    let action := pick "action" "task"
    let owner := pick "owner" "role"
    let due := pick "due" "timeline"
    let kpi := pick "kpi" "metric"
    let parts :=
      (if action ≠ "" then [action] else []) ++
      (if owner ≠ "" then ["（責任：" ++ owner ++ "）"] else []) ++
      (if due ≠ "" then ["（時程：" ++ due ++ "）"] else []) ++
      (if kpi ≠ "" then ["（KPI：" ++ kpi ++ "）"] else [])
    let joined := (String.intercalate " " parts).trim
    if joined ≠ "" then joined else "(未提供內容)"
  | _ => "(未提供內容)"

/-- `parse_sections` of `modules/analyze.py`, over the already-parsed JSON
object (`none` models a `json.JSONDecodeError`, which the source turns into
an empty dict). -/
def parse_sections (parsed : Option (List (String × JVal))) :
    String × List String × List String :=
  let data := parsed.getD []
  let summary :=
    (match data.lookup "summary" with
     | some v => if jTruthy v then pyStr v else ""
     | none => "").trim
  let outline_raw : JVal :=
    match data.lookup "outline" with
    | some v => if jTruthy v then v else .jarr []
    | none => .jarr []
  let todos_raw : JVal :=
    match data.lookup "todos" with
    | some v => if jTruthy v then v else .jarr []
    | none => .jarr []
  let outline :=
    match outline_raw with
    | .jarr xs =>
      xs.filterMap fun x =>
        match x with
        | .jstr s => if s.trim ≠ "" then some s.trim else none
        | _ => none
    | _ => []
  let todos :=
    match todos_raw with
    | .jarr xs =>
      xs.filterMap fun x =>
        let s := stringify_todo x
        if s ≠ "" then some s else none
    | _ => []
  (summary, outline, todos)

/-- Errors `run_batch_process` can raise. -/
inductive BatchErr
  | fileNotFound (msg : String)
  | valueError (msg : String)
  | ioError (msg : String)
deriving DecidableEq, Repr

/-- External capabilities and ambient inputs of one run. -/
structure Env where
  transcribe : FPath → Except String String
  ai_precheck : String → Bool → Except String (String × String)
  ai_analyze : String → String
  jsonParse : String → Option (List (String × JVal))
  sha256 : FPath → String
  now : String
  created_at : String

/-- `run_analysis` of `modules/analyze.py`: raises `ValueError` on empty
text, otherwise clips in preview mode, calls the model (which internally
never raises) and parses the three sections. -/
def run_analysis (env : Env) (text : String) (preview : Bool) :
    Except BatchErr (String × List String × List String) :=
  if text = "" then .error (.valueError "無效文字內容")
  else
    let clipped := if preview then String.mk (text.data.take 500) else text
    let ai_output := env.ai_analyze clipped
    let ai_output := if ai_output = "" then "\x7b\x7d" else ai_output
    .ok (parse_sections (env.jsonParse ai_output))

/-- Observable events of a run: progress-callback invocations, the loop
reaching a unit, and stage-capability invocations. -/
inductive Ev
  | progress (done total : Nat) (msg : String)
  | unitStart (idx : Nat) (absIndex : Int)
  | capTranscribe (p : FPath)
  | capPrecheck (t : String)
deriving DecidableEq, Repr

/-- `^(job_|segments_)\d\x7b8\x7d_\d\x7b6\x7d$`, case-insensitive. -/
def jobDirPat (name : String) : Bool :=
  let cs := (strToLower name).data
  let chk (pfx : List Char) : Bool :=
    pfx.isPrefixOf cs &&
      (let rest := cs.drop pfx.length
       rest.length = 15 && (rest.take 8).all Char.isDigit &&
         (rest.drop 8).take 1 = ['_'] && (rest.drop 9).all Char.isDigit)
  chk "job_".data || chk "segments_".data

/-- `_job_id_from_dir`: the directory name when it follows the dated-job
convention, else a fresh timestamp id. -/
def job_id_from_dir (name : String) (now : String) : String :=
  if jobDirPat name then name else "job_" ++ now

/-- `f"seg_\x7babs_index:02d\x7d"` plus a kind-specific file-name suffix. -/
def segName (si : Int) (idx : Nat) (kind : String) : String :=
  "seg_" ++ fmt02 (si + idx - 1) ++ kind

/-- A per-unit artifact path inside the job's text directory. -/
def unitPath (std : FPath) (si : Int) (idx : Nat) (kind : String) : FPath :=
  std ++ [segName si idx kind]

/-- The four artifact-kind file-name suffixes. -/
def KINDS : List String := ["_transcript.txt", "_review.txt", "_revised.txt", "_meta.json"]

/-- The four expected artifact paths of one unit (the `paths` dict). -/
def unitPaths (std : FPath) (si : Int) (idx : Nat) : List (String × FPath) :=
  [("transcript", unitPath std si idx "_transcript.txt"),
   ("review", unitPath std si idx "_review.txt"),
   ("revised", unitPath std si idx "_revised.txt"),
   ("meta", unitPath std si idx "_meta.json")]

/-- The unit's stage pipeline as one fallible computation: `transcribe`
then `ai_precheck`, exactly the body of the `try` block. -/
def stageResult (env : Env) (preview : Bool) (audioPath : FPath) :
    Except String (String × String × String) := do
  let t ← env.transcribe audioPath
  let (rv, rd) ← env.ai_precheck t preview
  pure (t, rv, rd)

/-- The failure record built in the `except` branch. -/
def failMeta (std : FPath) (si : Int) (idx : Nat) (fname e : String) : MetaRec :=
  { seg_id := fmt02 (si + idx - 1), audio := fname,
    pathsD := unitPaths std si idx, ok := false, error := some e }

/-- The success record, with checksum and length metrics. -/
def succMeta (env : Env) (segDir std : FPath) (si : Int) (idx : Nat)
    (fname t rv rd : String) : MetaRec :=
  { seg_id := fmt02 (si + idx - 1), audio := fname,
    audio_sha256 := some (env.sha256 (segDir ++ [fname])),
    pathsD := unitPaths std si idx,
    lens := some (t.length, rv.length, rd.length), ok := true }

/-- The record the skip branch synthesizes when the metadata file cannot be
loaded despite all four artifacts existing. -/
def fallbackMeta (std : FPath) (si : Int) (idx : Nat) (fname : String) : MetaRec :=
  { seg_id := fmt02 (si + idx - 1), audio := fname,
    pathsD := unitPaths std si idx, ok := true }

/-- The record a unit contributes to the manifest, as a function of the
stage results alone (what the processing branch produces). -/
def procOutcome (env : Env) (preview : Bool) (segDir std : FPath) (si : Int)
    (iq : Nat × String) : MetaRec :=
  match stageResult env preview (segDir ++ [iq.2]) with
  | .error e => failMeta std si iq.1 iq.2 e
  | .ok (t, rv, rd) => succMeta env segDir std si iq.1 iq.2 t rv rd

/-- Shared per-run arguments of the unit loop. -/
structure LoopCtx where
  env : Env
  preview : Bool
  force : Bool
  hasProgress : Bool
  onProgress : Nat → Nat → String → Except String Unit
  segDir : FPath
  segTextDir : FPath
  start_index : Int
  total : Nat

/-- `all(p.exists() for p in paths.values())`. -/
def allFourExist (fs : FS) (std : FPath) (si : Int) (idx : Nat) : Bool :=
  FS.fexists fs (unitPath std si idx "_transcript.txt") &&
    FS.fexists fs (unitPath std si idx "_review.txt") &&
    FS.fexists fs (unitPath std si idx "_revised.txt") &&
    FS.fexists fs (unitPath std si idx "_meta.json")

/-- The skip branch's metadata load: `json.load` of the stored record, with
the synthesized fallback when that fails. -/
def skipLoad (fs : FS) (std : FPath) (si : Int) (idx : Nat) (fname : String) :
    MetaRec :=
  match FS.read fs (unitPath std si idx "_meta.json") with
  | some (.meta m) => m
  | _ => fallbackMeta std si idx fname

/-- One iteration of the unit loop (`for idx, audio_path in enumerate(...)`):
skip when `force` is off and all four artifacts exist, otherwise run the
stage pipeline with the unit-boundary `try`/`except`; either way invoke the
progress callback, swallowing its result.  Returns the new file store, the
events of this iteration, and the record appended to `manifest["items"]`. -/
def stepParts (ctx : LoopCtx) (fs : FS) (iq : Nat × String) :
    FS × List Ev × MetaRec :=
  let (idx, fname) := iq
  let absIndex : Int := ctx.start_index + idx - 1
  if !ctx.force && allFourExist fs ctx.segTextDir ctx.start_index idx then
    let msg := "跳過第 " ++ intRepr absIndex ++ " 段"
    let _ := if ctx.hasProgress then ctx.onProgress idx ctx.total msg else .ok ()
    (fs,
     [.unitStart idx absIndex] ++
       (if ctx.hasProgress then [.progress idx ctx.total msg] else []),
     skipLoad fs ctx.segTextDir ctx.start_index idx fname)
  else
    let apath := ctx.segDir ++ [fname]
    let step : FS × List Ev × MetaRec :=
      match ctx.env.transcribe apath with
      | .error e =>
        (fs, [.capTranscribe apath],
         failMeta ctx.segTextDir ctx.start_index idx fname e)
      | .ok t =>
        match ctx.env.ai_precheck t ctx.preview with
        | .error e =>
          (fs, [.capTranscribe apath, .capPrecheck t],
           failMeta ctx.segTextDir ctx.start_index idx fname e)
        | .ok (rv, rd) =>
          (((fs.write (unitPath ctx.segTextDir ctx.start_index idx "_transcript.txt")
                (.text t)).write
              (unitPath ctx.segTextDir ctx.start_index idx "_review.txt") (.text rv)).write
            (unitPath ctx.segTextDir ctx.start_index idx "_revised.txt") (.text rd),
           [.capTranscribe apath, .capPrecheck t],
           succMeta ctx.env ctx.segDir ctx.segTextDir ctx.start_index idx
             fname t rv rd)
    let (fs1, capEvs, m) := step
    let fs2 := fs1.write (unitPath ctx.segTextDir ctx.start_index idx "_meta.json") (.meta m)
    let msg := "完成第 " ++ intRepr absIndex ++ " 段"
    let _ := if ctx.hasProgress then ctx.onProgress idx ctx.total msg else .ok ()
    (fs2,
     [.unitStart idx absIndex] ++ capEvs ++
       (if ctx.hasProgress then [.progress idx ctx.total msg] else []),
     m)

/-- One loop iteration applied to the running accumulator. -/
def unitStep (ctx : LoopCtx) (acc : FS × List Ev × List MetaRec)
    (iq : Nat × String) : FS × List Ev × List MetaRec :=
  let p := stepParts ctx acc.1 iq
  (p.1, acc.2.1 ++ p.2.1, acc.2.2 ++ [p.2.2])

/-- The unit loop. -/
def unitLoop (ctx : LoopCtx) (acc : FS × List Ev × List MetaRec) :
    List (Nat × String) → FS × List Ev × List MetaRec
  | [] => acc
  | iq :: rest => unitLoop ctx (unitStep ctx acc iq) rest

/-- `enumerate(l, i)`. -/
def enumFrom : Nat → List α → List (Nat × α)
  | _, [] => []
  | i, a :: as => (i, a) :: enumFrom (i + 1) as

/-- One `_stitch` block:
`f"=== \x7bheader_prefix\x7d \x7bi:02d\x7d | \x7bname\x7d ===\n\x7btxt\x7d\n"`. -/
def stitchChunk (headerPfx : String) (i : Nat) (name body : String) : String :=
  "=== " ++ headerPfx ++ " " ++ fmt02 i ++ " | " ++ name ++ " ===\n" ++ body ++ "\n"

/-- The chunks of `_stitch`, reading each listed file; an unreadable file
raises (propagates out of the run, like Python `open`). -/
def stitchGo (fs : FS) (hp : String) : Nat → List FPath → Except BatchErr (List String)
  | _, [] => .ok []
  | i, p :: rest =>
    match FS.read fs p with
    | some (.text body) =>
      match stitchGo fs hp (i + 1) rest with
      | .ok chunks => .ok (stitchChunk hp i (pathName p) body :: chunks)
      | .error e => .error e
    | _ => .error (.ioError ("無法讀取檔案：" ++ renderPath p))

/-- `_stitch`: the blocks joined by `"\n"` (hence a blank line between
consecutive blocks, since every block ends with `"\n"`). -/
def stitch (fs : FS) (hp : String) (paths : List FPath) : Except BatchErr String :=
  (stitchGo fs hp 1 paths).map (String.intercalate "\n")

/-- The paragraph sequence of `_save_docx`: title, three labelled section
headings, and `（無內容）` placeholders for empty fields. -/
def docxParagraphs (summary : String) (outline todos : List String) : List String :=
  ["會議摘要報告", "摘要", (if summary ≠ "" then summary else "（無內容）"), "大綱"] ++
    (if !outline.isEmpty then outline else ["（無內容）"]) ++
    ["待辦事項"] ++
    (if !todos.isEmpty then todos else ["（無內容）"])

/-- The plain-text rendering of the final report. -/
def meetingTxt (summary : String) (outline todos : List String) : String :=
  "【摘要】\n" ++ summary ++ "\n\n【大綱】\n" ++ String.intercalate "\n" outline ++
    "\n\n【待辦事項】\n" ++ String.intercalate "\n" todos

/-- What one run returns and leaves behind. -/
structure RunOut where
  ret : Except BatchErr FPath
  fs : FS
  events : List Ev
  items : List MetaRec
deriving Repr

/-- The processed window:
`start = max(0, start_index - 1)`, `end = None` when `max_segments` is
missing or non-positive, else `start + max_segments`, then
`all_seg_files[start:end]`. -/
def windowOf (all : List String) (si : Int) (maxseg : Option Int) : List String :=
  let start := (si - 1).toNat
  match maxseg with
  | none => all.drop start
  | some m => if m ≤ 0 then all.drop start else (all.drop start).take m.toNat

/-- The merge step: the three kinds' per-unit files of the successful
records, stitched (an empty path list yields an empty document). -/
def mergedOf (fs2 : FS) (items : List MetaRec) :
    Except BatchErr (String × String × String) :=
  let ok_items := items.filter (·.ok)
  let tr_paths := ok_items.filterMap fun it => it.pathsD.lookup "transcript"
  let rvw_paths := ok_items.filterMap fun it => it.pathsD.lookup "review"
  let rvd_paths := ok_items.filterMap fun it => it.pathsD.lookup "revised"
  do
    let mt ← if tr_paths.isEmpty then pure "" else stitch fs2 "TRANSCRIPT SEG" tr_paths
    let mrw ← if rvw_paths.isEmpty then pure "" else stitch fs2 "REVIEW SEG" rvw_paths
    let mrv ← if rvd_paths.isEmpty then pure "" else stitch fs2 "REVISED SEG" rvd_paths
    pure (mt, mrw, mrv)

/-- Everything after the unit loop: persist the manifest, merge the three
artifact kinds of the successful units, run the final analysis on the
merged revised text, and render the report in three formats. -/
def postLoop (env : Env) (segDir : FPath) (job_id : String) (preview : Bool)
    (start_index : Int) (total : Nat) (fs1 : FS) (evs1 : List Ev)
    (items : List MetaRec) : RunOut :=
  let final_dir := FINAL_ROOT ++ [job_id]
  let logs_dir := LOGS_ROOT ++ [job_id]
  let manifest : ManifestRec :=
    { job_id, segments_dir := renderPath segDir, created_at := env.created_at,
      preview, items, start_index, count := total }
  let manifest_path := logs_dir ++ ["batch_manifest_" ++ job_id ++ ".json"]
  let fs2 := fs1.write manifest_path (.manifestC manifest)
  match mergedOf fs2 items with
  | .error e => { ret := .error e, fs := fs2, events := evs1, items }
  | .ok (mt, mrw, mrv) =>
    let fs3 :=
      ((fs2.write (final_dir ++ ["transcript.txt"]) (.text mt)).write
        (final_dir ++ ["transcript_review.txt"]) (.text mrw)).write
        (final_dir ++ ["transcript_revised.txt"]) (.text mrv)
    match run_analysis env mrv false with
    | .error e => { ret := .error e, fs := fs3, events := evs1, items }
    | .ok (summary, outline, todos) =>
      let docxPath := final_dir ++ ["meeting_summary.docx"]
      let fs4 :=
        ((fs3.write (final_dir ++ ["meeting_summary.txt"])
            (.text (meetingTxt summary outline todos))).write
          docxPath (.docx (docxParagraphs summary outline todos))).write
          (final_dir ++ ["meeting_summary.json"])
          (.summaryJson summary outline todos)
      { ret := .ok docxPath, fs := fs4, events := evs1, items }

/-- `run_batch_process` after unit enumeration: guard against an empty unit
set (with the stray-files hint), then window, loop and `postLoop`. -/
def run_batch_after_enum (env : Env) (fs0 : FS) (segDir : FPath)
    (all_seg_files root_examples : List String) (preview force : Bool)
    (start_index : Int) (max_segments : Option Int)
    (hasProgress : Bool) (onProgress : Nat → Nat → String → Except String Unit) :
    RunOut :=
  let job_id := job_id_from_dir (pathName segDir) env.now
  if all_seg_files.isEmpty then
    let hint :=
      if !root_examples.isEmpty then
        "；注意：在根目錄 " ++ renderPath SEG_AUDIO_ROOT ++ " 發現 " ++
          natRepr root_examples.length ++ " 個音檔，請確認是否放錯位置"
      else ""
    { ret := .error (.fileNotFound
        ("在 " ++ renderPath segDir ++ " 沒找到任何音檔" ++ hint ++ "。")),
      fs := fs0, events := [], items := [] }
  else
    let seg_files := windowOf all_seg_files start_index max_segments
    let total := seg_files.length
    let ev0 : List Ev := if hasProgress then [.progress 0 total "開始處理"] else []
    let _ := if hasProgress then onProgress 0 total "開始處理" else .ok ()
    let ctx : LoopCtx :=
      { env, preview, force, hasProgress, onProgress, segDir,
        segTextDir := SEG_TEXT_ROOT ++ [job_id], start_index, total }
    let r := unitLoop ctx (fs0, ev0, []) (enumFrom 1 seg_files)
    postLoop env segDir job_id preview start_index total r.1 r.2.1 r.2.2

/-- `run_batch_process`, over the already-resolved unit directory: the
directory-existence guard, then enumeration and the pipeline.  `listing`
and `rootListing` are the file names of the resolved unit directory and of
the canonical root (for the misplacement hint). -/
def run_batch_process (env : Env) (fs0 : FS) (segDir : FPath) (dirExists : Bool)
    (listing rootListing : List String) (preview force : Bool)
    (start_index : Int) (max_segments : Option Int)
    (hasProgress : Bool) (onProgress : Nat → Nat → String → Except String Unit) :
    RunOut :=
  if !dirExists then
    { ret := .error (.fileNotFound ("找不到分段目錄：" ++ renderPath segDir)),
      fs := fs0, events := [], items := [] }
  else
    run_batch_after_enum env fs0 segDir (list_segments listing)
      (list_segments rootListing) preview force start_index max_segments
      hasProgress onProgress

/-! ### Order-theoretic facts about the natural-sort comparison -/

theorem charEq_of_toNat {a b : Char} (h : a.toNat = b.toNat) : a = b := by
  rw [← Char.ofNat_toNat a, ← Char.ofNat_toNat b, h]

theorem strLt_asymm : ∀ (a b : List Char), strLt a b = true → strLt b a = false
  | [], [], h => by simp [strLt] at h
  | [], _ :: _, _ => by simp [strLt]
  | _ :: _, [], h => by simp [strLt] at h
  | c :: cs, d :: ds, h => by
    simp only [strLt] at h ⊢
    by_cases h1 : c.toNat < d.toNat
    · rw [if_neg (by omega), if_pos h1]
    · by_cases h2 : d.toNat < c.toNat
      · rw [if_neg h1, if_pos h2] at h
        exact absurd h (by decide)
      · rw [if_neg h1, if_neg h2] at h
        rw [if_neg h2, if_neg h1]
        exact strLt_asymm cs ds h

theorem strLt_trans : ∀ (a b c : List Char),
    strLt a b = true → strLt b c = true → strLt a c = true
  | [], [], _, h1, _ => by simp [strLt] at h1
  | [], _ :: _, [], _, h2 => by simp [strLt] at h2
  | [], _ :: _, _ :: _, _, _ => by simp [strLt]
  | _ :: _, [], _, h1, _ => by simp [strLt] at h1
  | _ :: _, _ :: _, [], _, h2 => by simp [strLt] at h2
  | c :: cs, d :: ds, e :: es, h1, h2 => by
    simp only [strLt] at h1 h2 ⊢
    by_cases a1 : c.toNat < d.toNat
    · by_cases a2 : d.toNat < e.toNat
      · rw [if_pos (show c.toNat < e.toNat by omega)]
      · by_cases a3 : e.toNat < d.toNat
        · rw [if_neg a2, if_pos a3] at h2
          exact absurd h2 (by decide)
        · rw [if_pos (show c.toNat < e.toNat by omega)]
    · by_cases a4 : d.toNat < c.toNat
      · rw [if_neg a1, if_pos a4] at h1
        exact absurd h1 (by decide)
      · rw [if_neg a1, if_neg a4] at h1
        by_cases a2 : d.toNat < e.toNat
        · rw [if_pos (show c.toNat < e.toNat by omega)]
        · by_cases a3 : e.toNat < d.toNat
          · rw [if_neg a2, if_pos a3] at h2
            exact absurd h2 (by decide)
          · rw [if_neg a2, if_neg a3] at h2
            rw [if_neg (show ¬ c.toNat < e.toNat by omega),
              if_neg (show ¬ e.toNat < c.toNat by omega)]
            exact strLt_trans cs ds es h1 h2

theorem strLt_conn : ∀ (a b : List Char),
    strLt a b = false → strLt b a = false → a = b
  | [], [], _, _ => rfl
  | [], _ :: _, h1, _ => by simp [strLt] at h1
  | _ :: _, [], _, h2 => by simp [strLt] at h2
  | c :: cs, d :: ds, h1, h2 => by
    simp only [strLt] at h1 h2
    by_cases a1 : c.toNat < d.toNat
    · rw [if_pos a1] at h1
      exact absurd h1 (by decide)
    · by_cases a2 : d.toNat < c.toNat
      · rw [if_pos a2] at h2
        exact absurd h2 (by decide)
      · rw [if_neg a1, if_neg a2] at h1
        rw [if_neg a2, if_neg a1] at h2
        rw [charEq_of_toNat (show c.toNat = d.toNat by omega),
          strLt_conn cs ds h1 h2]

theorem stringEq_of_data {a b : String} (h : a.data = b.data) : a = b := by
  cases a
  cases b
  exact congrArg String.mk h

theorem ntokLt_asymm : ∀ {a b : NTok}, ntokLt a b = true → ntokLt b a = false
  | .str _, .str _, h => strLt_asymm _ _ h
  | .num a, .num b, h => by
    simp only [ntokLt, decide_eq_true_eq] at h ⊢
    exact decide_eq_false (by omega)
  | .str _, .num _, _ => rfl
  | .num _, .str _, h => by simp [ntokLt] at h

theorem ntokLt_trans : ∀ {a b c : NTok}, ntokLt a b = true → ntokLt b c = true →
    ntokLt a c = true
  | .str _, .str _, .str _, h1, h2 => strLt_trans _ _ _ h1 h2
  | .num _, .num _, .num _, h1, h2 => by
    simp only [ntokLt, decide_eq_true_eq] at h1 h2 ⊢
    omega
  | .str _, .str _, .num _, _, _ => rfl
  | .str _, .num _, .str _, _, h2 => by simp [ntokLt] at h2
  | .str _, .num _, .num _, _, _ => rfl
  | .num _, .str _, _, h1, _ => by simp [ntokLt] at h1
  | .num _, .num _, .str _, _, h2 => by simp [ntokLt] at h2

theorem ntokLt_conn : ∀ {a b : NTok}, ntokLt a b = false → ntokLt b a = false →
    a = b
  | .str _, .str _, h1, h2 => congrArg NTok.str (stringEq_of_data (strLt_conn _ _ h1 h2))
  | .num _, .num _, h1, h2 => by
    simp only [ntokLt, decide_eq_false_iff_not] at h1 h2
    exact congrArg NTok.num (by omega)
  | .str _, .num _, h1, _ => by simp [ntokLt] at h1
  | .num _, .str _, _, h2 => by simp [ntokLt] at h2

theorem nkeyLt_asymm : ∀ (a b : List NTok), nkeyLt a b = true → nkeyLt b a = false
  | [], [], h => by simp [nkeyLt] at h
  | [], _ :: _, _ => by simp [nkeyLt]
  | _ :: _, [], h => by simp [nkeyLt] at h
  | a :: as, b :: bs, h => by
    simp only [nkeyLt] at h ⊢
    by_cases h1 : ntokLt a b = true
    · rw [if_neg (by simp [ntokLt_asymm h1]), if_pos h1]
    · by_cases h2 : ntokLt b a = true
      · rw [if_neg h1, if_pos h2] at h
        exact absurd h (by decide)
      · rw [if_neg h1, if_neg h2] at h
        rw [if_neg h2, if_neg h1]
        exact nkeyLt_asymm as bs h

theorem nkeyLt_trans : ∀ (a b c : List NTok),
    nkeyLt a b = true → nkeyLt b c = true → nkeyLt a c = true
  | [], [], _, h1, _ => by simp [nkeyLt] at h1
  | [], _ :: _, [], _, h2 => by simp [nkeyLt] at h2
  | [], _ :: _, _ :: _, _, _ => by simp [nkeyLt]
  | _ :: _, [], _, h1, _ => by simp [nkeyLt] at h1
  | _ :: _, _ :: _, [], _, h2 => by simp [nkeyLt] at h2
  | a :: as, b :: bs, c :: cs, h1, h2 => by
    simp only [nkeyLt] at h1 h2 ⊢
    by_cases a1 : ntokLt a b = true
    · by_cases a2 : ntokLt b c = true
      · rw [if_pos (ntokLt_trans a1 a2)]
      · by_cases a3 : ntokLt c b = true
        · rw [if_neg a2, if_pos a3] at h2
          exact absurd h2 (by decide)
        · have hbc : b = c := ntokLt_conn (by simpa using a2) (by simpa using a3)
          subst hbc
          rw [if_pos a1]
    · by_cases a4 : ntokLt b a = true
      · rw [if_neg a1, if_pos a4] at h1
        exact absurd h1 (by decide)
      · have hab : a = b := ntokLt_conn (by simpa using a1) (by simpa using a4)
        subst hab
        rw [if_neg a1, if_neg a4] at h1
        by_cases a2 : ntokLt a c = true
        · rw [if_pos a2]
        · by_cases a3 : ntokLt c a = true
          · rw [if_neg a2, if_pos a3] at h2
            exact absurd h2 (by decide)
          · rw [if_neg a2, if_neg a3] at h2
            rw [if_neg a2, if_neg a3]
            exact nkeyLt_trans as bs cs h1 h2

theorem nkeyLt_conn : ∀ (a b : List NTok),
    nkeyLt a b = false → nkeyLt b a = false → a = b
  | [], [], _, _ => rfl
  | [], _ :: _, h1, _ => by simp [nkeyLt] at h1
  | _ :: _, [], _, h2 => by simp [nkeyLt] at h2
  | a :: as, b :: bs, h1, h2 => by
    simp only [nkeyLt] at h1 h2
    by_cases a1 : ntokLt a b = true
    · rw [if_pos a1] at h1
      exact absurd h1 (by decide)
    · by_cases a2 : ntokLt b a = true
      · rw [if_pos a2] at h2
        exact absurd h2 (by decide)
      · have hab : a = b := ntokLt_conn (by simpa using a1) (by simpa using a2)
        rw [if_neg a1, if_neg a2] at h1
        rw [if_neg a2, if_neg a1] at h2
        rw [hab, nkeyLt_conn as bs h1 h2]

theorem nkeyLe_total (a b : String) : nkeyLe a b ∨ nkeyLe b a := by
  unfold nkeyLe nkeyLeB
  by_cases h : nkeyLt (nkey b) (nkey a) = true
  · right
    simp [nkeyLt_asymm _ _ h]
  · left
    simp only [Bool.not_eq_true] at h
    simp [h]

theorem nkeyLe_trans {a b c : String} (h1 : nkeyLe a b) (h2 : nkeyLe b c) :
    nkeyLe a c := by
  unfold nkeyLe nkeyLeB at h1 h2 ⊢
  simp only [Bool.not_eq_true'] at h1 h2 ⊢
  by_cases h : nkeyLt (nkey c) (nkey a) = true
  · exfalso
    by_cases hbc : nkeyLt (nkey b) (nkey c) = true
    · have hba := nkeyLt_trans _ _ _ hbc h
      simp [hba] at h1
    · have heq : nkey b = nkey c := nkeyLt_conn _ _ (by simpa using hbc) h2
      rw [← heq] at h
      simp [h] at h1
  · simpa using h

theorem nkey_eq_of_le_le {a b : String} (h1 : nkeyLe a b) (h2 : nkeyLe b a) :
    nkey a = nkey b := by
  unfold nkeyLe nkeyLeB at h1 h2
  simp only [Bool.not_eq_true'] at h1 h2
  exact nkeyLt_conn _ _ h2 h1

instance : IsTotal String nkeyLe := ⟨nkeyLe_total⟩

instance : IsTrans String nkeyLe := ⟨fun _ _ _ => nkeyLe_trans⟩

/-- Two sorted lists that are permutations of each other and whose members
have pairwise-distinguishing sort keys are equal: sorting is deterministic
on key-distinct inputs, whatever the enumeration order was. -/
theorem sorted_perm_eq : ∀ {l₁ l₂ : List String}, l₁.Perm l₂ →
    l₁.Sorted nkeyLe → l₂.Sorted nkeyLe →
    (∀ a ∈ l₁, ∀ b ∈ l₁, nkey a = nkey b → a = b) → l₁ = l₂
  | [], l₂, hp, _, _, _ => hp.nil_eq
  | a :: t₁, [], hp, _, _, _ => by simpa using hp.length_eq
  | a :: t₁, b :: t₂, hp, h₁, h₂, hkey => by
    have hb : b ∈ a :: t₁ := hp.mem_iff.mpr (List.mem_cons_self b t₂)
    have ha : a ∈ b :: t₂ := hp.mem_iff.mp (List.mem_cons_self a t₁)
    have hab : a = b := by
      rcases List.mem_cons.mp hb with hba | hb'
      · exact hba.symm
      rcases List.mem_cons.mp ha with hab | ha'
      · exact hab
      have lab : nkeyLe a b := List.rel_of_sorted_cons h₁ b hb'
      have lba : nkeyLe b a := List.rel_of_sorted_cons h₂ a ha'
      exact hkey a (List.mem_cons_self a t₁) b hb (nkey_eq_of_le_le lab lba)
    subst hab
    have ht : t₁.Perm t₂ := hp.cons_inv
    have : t₁ = t₂ :=
      sorted_perm_eq ht h₁.of_cons h₂.of_cons fun x hx y hy =>
        hkey x (List.mem_cons_of_mem a hx) y (List.mem_cons_of_mem a hy)
    rw [this]

/-- Enumeration is deterministic: whatever order the file system lists a
directory in, `_list_segments` returns the canonical key-sorted sequence,
provided the members' keys are pairwise distinguishing. -/
theorem list_segments_of_perm {l canon : List String} (hp : l.Perm canon)
    (hfilter : canon.filter (fun f => EXTS.contains (strToLower (pySuffix f))) = canon)
    (hsorted : canon.Sorted nkeyLe)
    (hinj : ∀ a ∈ canon, ∀ b ∈ canon, nkey a = nkey b → a = b) :
    list_segments l = canon := by
  unfold list_segments
  have hpf := hp.filter (fun f => EXTS.contains (strToLower (pySuffix f)))
  rw [hfilter] at hpf
  have hperm := (List.perm_insertionSort nkeyLe
    (l.filter fun f => EXTS.contains (strToLower (pySuffix f)))).trans hpf
  refine sorted_perm_eq hperm (List.sorted_insertionSort nkeyLe _) hsorted ?_
  intro a ha b hb
  exact hinj a (hperm.subset ha) b (hperm.subset hb)

/-- A capability environment whose stage calls always succeed. -/
def okEnv : Env :=
  { transcribe := fun p => .ok ("T-" ++ pathName p),
    ai_precheck := fun t _ => .ok ("RV-" ++ t, "RD-" ++ t),
    ai_analyze := fun _ => "",
    jsonParse := fun _ => none,
    sha256 := fun _ => "h",
    now := "20250101_000000",
    created_at := "2025-01-01 00:00:00" }

/-- A progress callback that does nothing. -/
def noProgress : Nat → Nat → String → Except String Unit := fun _ _ _ => .ok ()

/-- A resolved job unit directory used by concrete runs. -/
def jobDir : FPath := ["output", "segments", "job_20250101_000001"]

/-- An environment whose transcript text never mentions the unit's source
file name (the review/revision texts are constants too). -/
def ctEnv : Env :=
  { transcribe := fun _ => .ok "hello",
    ai_precheck := fun _ _ => .ok ("rv", "rd"),
    ai_analyze := fun _ => "",
    jsonParse := fun _ => none,
    sha256 := fun _ => "h",
    now := "20250101_000000",
    created_at := "2025-01-01 00:00:00" }

/-- An environment whose transcription stage always fails. -/
def failEnv : Env :=
  { transcribe := fun _ => .error "boom",
    ai_precheck := fun t _ => .ok ("RV-" ++ t, "RD-" ++ t),
    ai_analyze := fun _ => "",
    jsonParse := fun _ => none,
    sha256 := fun _ => "h",
    now := "20250101_000000",
    created_at := "2025-01-01 00:00:00" }

/-- Boolean list-prefix test. -/
def prefixOfB : List Char → List Char → Bool
  | [], _ => true
  | _ :: _, [] => false
  | a :: as, b :: bs => a == b && prefixOfB as bs

/-- Boolean substring (contiguous infix) test on character lists. -/
def infixOfB (needle : List Char) : List Char → Bool
  | [] => needle.isEmpty
  | c :: rest => prefixOfB needle (c :: rest) || infixOfB needle rest

/-- `part_1 … part_12` in numeric order. -/
def partSorted : List String :=
  ["part_1.wav", "part_2.wav", "part_3.wav", "part_4.wav", "part_5.wav",
   "part_6.wav", "part_7.wav", "part_8.wav", "part_9.wav", "part_10.wav",
   "part_11.wav", "part_12.wav"]

/-- C4: unit enumeration splits each filename into alternating
non-digit/digit tokens and compares digit tokens numerically, so any
directory listing that is a permutation of `part_1 … part_12` is
enumerated — and processed and merged — in numeric order (`part_10` after
`part_9`), independent of the filesystem enumeration order. -/
theorem claim_C4 (l : List String) (hp : l.Perm partSorted) :
    list_segments l = partSorted ∧
    ((run_batch_process okEnv [] jobDir true l [] false false 1 none false
        noProgress).items.map fun it => it.audio) = partSorted := by
  have hseg : list_segments l = partSorted :=
    list_segments_of_perm hp (by decide) (by decide) (by decide)
  refine ⟨hseg, ?_⟩
  have h1 : run_batch_process okEnv [] jobDir true l [] false false 1 none false noProgress
      = run_batch_after_enum okEnv [] jobDir (list_segments l) (list_segments [])
          false false 1 none false noProgress := rfl
  rw [h1, hseg]
  decide

/-- Witness for C4 at a concrete scrambled listing. -/
theorem claim_C4_witness :
    (["part_10.wav", "part_2.wav", "part_12.wav", "part_1.wav", "part_9.wav",
      "part_4.wav", "part_11.wav", "part_3.wav", "part_6.wav", "part_5.wav",
      "part_8.wav", "part_7.wav"] : List String).Perm partSorted ∧
    (list_segments
        ["part_10.wav", "part_2.wav", "part_12.wav", "part_1.wav", "part_9.wav",
         "part_4.wav", "part_11.wav", "part_3.wav", "part_6.wav", "part_5.wav",
         "part_8.wav", "part_7.wav"] = partSorted ∧
      ((run_batch_process okEnv [] jobDir true
          ["part_10.wav", "part_2.wav", "part_12.wav", "part_1.wav", "part_9.wav",
           "part_4.wav", "part_11.wav", "part_3.wav", "part_6.wav", "part_5.wav",
           "part_8.wav", "part_7.wav"] [] false false 1 none false
          noProgress).items.map fun it => it.audio) = partSorted) :=
  ⟨by decide, claim_C4 _ (by decide)⟩

/-! ### Injectivity of the decimal renderings -/

/-- The digits of `n` with the fuel fixed to `n` itself. -/
def digitsOf (n : Nat) : List Char := natDigitsCore n n []

theorem natDigitsCore_zero (fuel : Nat) (acc : List Char) :
    natDigitsCore fuel 0 acc = acc := by
  cases fuel <;> rfl

theorem natDigitsCore_eq (n : Nat) : ∀ (fuel : Nat) (acc : List Char), n ≤ fuel →
    natDigitsCore fuel n acc = digitsOf n ++ acc := by
  induction n using Nat.strong_induction_on with
  | _ n ih =>
    intro fuel acc hle
    match n, hle with
    | 0, _ => simp [natDigitsCore_zero, digitsOf]
    | (m + 1), hle =>
      obtain ⟨f, rfl⟩ : ∃ f, fuel = f + 1 := ⟨fuel - 1, by omega⟩
      have hdiv : (m + 1) / 10 < m + 1 := Nat.div_lt_self (by omega) (by omega)
      rw [natDigitsCore, ih ((m + 1) / 10) hdiv f _ (by omega)]
      have hD : digitsOf (m + 1) =
          digitsOf ((m + 1) / 10) ++ [Nat.digitChar ((m + 1) % 10)] := by
        unfold digitsOf
        rw [natDigitsCore, ih ((m + 1) / 10) hdiv m _ (by omega)]
        rfl
      rw [hD, List.append_assoc]
      rfl

theorem digitsOf_succ (m : Nat) :
    digitsOf (m + 1) = digitsOf ((m + 1) / 10) ++ [Nat.digitChar ((m + 1) % 10)] := by
  have hdiv : (m + 1) / 10 < m + 1 := Nat.div_lt_self (by omega) (by omega)
  unfold digitsOf
  rw [natDigitsCore, natDigitsCore_eq ((m + 1) / 10) m _ (by omega)]
  rfl

theorem natOfDigits_append_one (xs : List Char) (c : Char) :
    natOfDigits (xs ++ [c]) = 10 * natOfDigits xs + (c.toNat - 48) := by
  unfold natOfDigits
  rw [List.foldl_append]
  rfl

theorem natOfDigits_digitsOf : ∀ n : Nat, natOfDigits (digitsOf n) = n := by
  intro n
  induction n using Nat.strong_induction_on with
  | _ n ih =>
    match n with
    | 0 => rfl
    | (m + 1) =>
      have hdiv : (m + 1) / 10 < m + 1 := Nat.div_lt_self (by omega) (by omega)
      rw [digitsOf_succ, natOfDigits_append_one, ih _ hdiv]
      have hchar : ∀ k : Nat, k < 10 → (Nat.digitChar k).toNat - 48 = k := by decide
      rw [hchar _ (Nat.mod_lt _ (by omega))]
      omega

theorem natOfDigits_natRepr (n : Nat) : natOfDigits (natRepr n).data = n := by
  unfold natRepr
  split
  · subst n
    rfl
  · exact natOfDigits_digitsOf n

theorem natRepr_inj {a b : Nat} (h : natRepr a = natRepr b) : a = b := by
  have := congrArg (fun s => natOfDigits s.data) h
  simpa [natOfDigits_natRepr] using this

theorem digitsOf_chars : ∀ n : Nat, ∀ c ∈ digitsOf n, c.isDigit = true := by
  intro n
  induction n using Nat.strong_induction_on with
  | _ n ih =>
    match n with
    | 0 => intro c hc; simp [digitsOf, natDigitsCore_zero] at hc
    | (m + 1) =>
      intro c hc
      rw [digitsOf_succ] at hc
      rcases List.mem_append.mp hc with h | h
      · exact ih _ (Nat.div_lt_self (by omega) (by omega)) c h
      · have hd : ∀ k : Nat, k < 10 → (Nat.digitChar k).isDigit = true := by decide
        rw [List.mem_singleton.mp h]
        exact hd _ (Nat.mod_lt _ (by omega))

theorem natRepr_chars (n : Nat) : ∀ c ∈ (natRepr n).data, c.isDigit = true := by
  unfold natRepr
  split
  · intro c hc
    simp at hc
    subst hc
    decide
  · exact digitsOf_chars n

theorem intRepr_data_neg {a : Int} (ha : a < 0) :
    (intRepr a).data = '-' :: (natRepr a.natAbs).data := by
  unfold intRepr
  rw [if_pos ha]
  rfl

theorem intRepr_data_nonneg {a : Int} (ha : ¬ a < 0) :
    (intRepr a).data = (natRepr a.natAbs).data := by
  unfold intRepr
  rw [if_neg ha]

theorem intRepr_inj {a b : Int} (h : intRepr a = intRepr b) : a = b := by
  have hdata := congrArg String.data h
  by_cases ha : a < 0 <;> by_cases hb : b < 0
  · rw [intRepr_data_neg ha, intRepr_data_neg hb] at hdata
    have := natRepr_inj (stringEq_of_data (List.cons.inj hdata).2)
    omega
  · rw [intRepr_data_neg ha, intRepr_data_nonneg hb] at hdata
    have hmem : '-' ∈ (natRepr b.natAbs).data := by
      rw [← hdata]
      exact List.mem_cons_self _ _
    have := natRepr_chars b.natAbs '-' hmem
    exact absurd this (by decide)
  · rw [intRepr_data_nonneg ha, intRepr_data_neg hb] at hdata
    have hmem : '-' ∈ (natRepr a.natAbs).data := by
      rw [hdata]
      exact List.mem_cons_self _ _
    have := natRepr_chars a.natAbs '-' hmem
    exact absurd this (by decide)
  · rw [intRepr_data_nonneg ha, intRepr_data_nonneg hb] at hdata
    have := natRepr_inj (stringEq_of_data hdata)
    omega

theorem natOfDigits_cons_zero (xs : List Char) :
    natOfDigits ('0' :: xs) = natOfDigits xs := rfl

theorem intRepr_val_nonneg {a : Int} (ha : ¬ a < 0) :
    natOfDigits (intRepr a).data = a.natAbs := by
  rw [intRepr_data_nonneg ha, natOfDigits_natRepr]

theorem fmt02_inj {a b : Int} (h : fmt02 a = fmt02 b) : a = b := by
  unfold fmt02 at h
  by_cases c1 : 0 ≤ a ∧ a < 10 <;> by_cases c2 : 0 ≤ b ∧ b < 10
  · rw [if_pos c1, if_pos c2] at h
    have hdata := congrArg String.data h
    have : (intRepr a).data = (intRepr b).data := by
      simpa using hdata
    exact intRepr_inj (stringEq_of_data this)
  · rw [if_pos c1, if_neg c2] at h
    have hdata := congrArg String.data h
    by_cases hb : b < 0
    · rw [intRepr_data_neg hb] at hdata
      have : ('0' : Char) = '-' := by
        have h0 : ("0" ++ intRepr a).data = '0' :: (intRepr a).data := rfl
        rw [h0] at hdata
        exact (List.cons.inj hdata).1
      exact absurd this (by decide)
    · have h0 : ("0" ++ intRepr a).data = '0' :: (intRepr a).data := rfl
      rw [h0] at hdata
      have hv := congrArg natOfDigits hdata
      rw [natOfDigits_cons_zero] at hv
      rw [intRepr_val_nonneg hb] at hv
      rw [intRepr_val_nonneg (show ¬ a < 0 by omega)] at hv
      omega
  · rw [if_neg c1, if_pos c2] at h
    have hdata := congrArg String.data h
    by_cases ha : a < 0
    · rw [intRepr_data_neg ha] at hdata
      have : ('-' : Char) = '0' := by
        have h0 : ("0" ++ intRepr b).data = '0' :: (intRepr b).data := rfl
        rw [h0] at hdata
        exact (List.cons.inj hdata).1
      exact absurd this (by decide)
    · have h0 : ("0" ++ intRepr b).data = '0' :: (intRepr b).data := rfl
      rw [h0] at hdata
      have hv := congrArg natOfDigits hdata
      rw [natOfDigits_cons_zero] at hv
      rw [intRepr_val_nonneg ha] at hv
      rw [intRepr_val_nonneg (show ¬ b < 0 by omega)] at hv
      omega
  · rw [if_neg c1, if_neg c2] at h
    exact intRepr_inj h

theorem fmt02_chars (n : Int) : ∀ c ∈ (fmt02 n).data, c.isDigit = true ∨ c = '-' := by
  unfold fmt02
  split
  · intro c hc
    have h0 : ("0" ++ intRepr n).data = '0' :: (intRepr n).data := rfl
    rw [h0] at hc
    rcases List.mem_cons.mp hc with rfl | hc
    · left
      decide
    · by_cases hn : n < 0
      · rw [intRepr_data_neg hn] at hc
        rcases List.mem_cons.mp hc with rfl | hc
        · right
          rfl
        · exact Or.inl (natRepr_chars _ _ hc)
      · rw [intRepr_data_nonneg hn] at hc
        exact Or.inl (natRepr_chars _ _ hc)
  · intro c hc
    by_cases hn : n < 0
    · rw [intRepr_data_neg hn] at hc
      rcases List.mem_cons.mp hc with rfl | hc
      · right
        rfl
      · exact Or.inl (natRepr_chars _ _ hc)
    · rw [intRepr_data_nonneg hn] at hc
      exact Or.inl (natRepr_chars _ _ hc)

/-! ### Distinctness of per-unit artifact file names -/

/-- Characters allowed in a `{n:02d}` rendering. -/
def numChar (c : Char) : Prop := c.isDigit = true ∨ c = '-'

instance : DecidablePred numChar := fun c => by
  unfold numChar
  infer_instance

/-- Unique decomposition of `u ++ k` when every character of `u` is a
`numChar` and `k` starts with a character that is not. -/
theorem append_split_unique :
    ∀ (u u' k k' : List Char), (∀ x ∈ u, numChar x) → (∀ x ∈ u', numChar x) →
      k ≠ [] → k' ≠ [] → ¬ numChar k.headI → ¬ numChar k'.headI →
      u ++ k = u' ++ k' → u = u' ∧ k = k'
  | [], [], k, k', _, _, _, _, _, _, h => ⟨rfl, h⟩
  | [], b :: u', k, k', _, hu', _, _, hh, _, h => by
    exfalso
    apply hh
    rw [List.nil_append] at h
    rw [h]
    exact hu' b (List.mem_cons_self b u')
  | a :: u, [], k, k', hu, _, _, _, _, hh', h => by
    exfalso
    apply hh'
    rw [List.nil_append] at h
    rw [← h]
    exact hu a (List.mem_cons_self a u)
  | a :: u, b :: u', k, k', hu, hu', hk, hk', hh, hh', h => by
    have hab : a = b := (List.cons.inj h).1
    have ht := (List.cons.inj h).2
    obtain ⟨h1, h2⟩ := append_split_unique u u' k k'
      (fun x hx => hu x (List.mem_cons_of_mem a hx))
      (fun x hx => hu' x (List.mem_cons_of_mem b hx)) hk hk' hh hh' ht
    exact ⟨by rw [hab, h1], h2⟩

theorem fmt02_numChars (n : Int) : ∀ c ∈ (fmt02 n).data, numChar c :=
  fmt02_chars n

theorem segName_inj {a b : Int} {ka kb : String} (hka : ka ∈ KINDS)
    (hkb : kb ∈ KINDS)
    (h : "seg_" ++ fmt02 a ++ ka = "seg_" ++ fmt02 b ++ kb) : a = b ∧ ka = kb := by
  have hdata := congrArg String.data h
  rw [String.data_append, String.data_append, String.data_append,
    String.data_append, List.append_assoc, List.append_assoc] at hdata
  have hstrip := List.append_cancel_left hdata
  have hne : ka.data ≠ [] ∧ ¬ numChar ka.data.headI := by
    fin_cases hka <;> exact ⟨by decide, by decide⟩
  have hne' : kb.data ≠ [] ∧ ¬ numChar kb.data.headI := by
    fin_cases hkb <;> exact ⟨by decide, by decide⟩
  obtain ⟨h1, h2⟩ := append_split_unique (fmt02 a).data (fmt02 b).data ka.data kb.data
    (fmt02_numChars a) (fmt02_numChars b) hne.1 hne'.1 hne.2 hne'.2 hstrip
  exact ⟨fmt02_inj (stringEq_of_data h1), stringEq_of_data h2⟩

theorem listAppend_singleton_inj {std : FPath} {x y : String}
    (h : std ++ [x] = std ++ [y]) : x = y := by
  have := List.append_cancel_left h
  simpa using this

theorem unitPath_inj {std : FPath} {si : Int} {i j : Nat} {ka kb : String}
    (hka : ka ∈ KINDS) (hkb : kb ∈ KINDS)
    (h : unitPath std si i ka = unitPath std si j kb) : i = j ∧ ka = kb := by
  unfold unitPath segName at h
  have hname := listAppend_singleton_inj h
  obtain ⟨h1, h2⟩ := segName_inj hka hkb hname
  exact ⟨by omega, h2⟩

theorem unitPath_ne {std : FPath} {si : Int} {i j : Nat} {ka kb : String}
    (hka : ka ∈ KINDS) (hkb : kb ∈ KINDS) (hij : i ≠ j) :
    unitPath std si i ka ≠ unitPath std si j kb := by
  intro h
  exact hij (unitPath_inj hka hkb h).1

/-! ### Loop analysis -/

theorem FS.read_write_same (fs : FS) (p : FPath) (c : FileContent) :
    FS.read (FS.write fs p c) p = some c := by
  unfold FS.read FS.write
  simp [List.find?]

theorem FS.read_write_ne (fs : FS) {p q : FPath} (c : FileContent) (h : q ≠ p) :
    FS.read (FS.write fs q c) p = FS.read fs p := by
  unfold FS.read FS.write
  simp [List.find?, h]

theorem FS.fexists_write (fs : FS) (p q : FPath) (c : FileContent)
    (h : FS.fexists fs p = true) : FS.fexists (FS.write fs q c) p = true := by
  by_cases hq : q = p
  · subst hq
    unfold FS.fexists
    rw [FS.read_write_same]
    rfl
  · unfold FS.fexists
    rw [FS.read_write_ne fs c hq]
    exact h

/-- The events one processed (non-skipped) unit emits. -/
def procEvs (ctx : LoopCtx) (iq : Nat × String) : List Ev :=
  let absIndex : Int := ctx.start_index + iq.1 - 1
  let apath := ctx.segDir ++ [iq.2]
  [.unitStart iq.1 absIndex] ++
    (match ctx.env.transcribe apath with
     | .error _ => [.capTranscribe apath]
     | .ok t => [.capTranscribe apath, .capPrecheck t]) ++
    (if ctx.hasProgress then
      [.progress iq.1 ctx.total ("完成第 " ++ intRepr absIndex ++ " 段")] else [])

/-- The events one skipped unit emits. -/
def skipEvs (ctx : LoopCtx) (iq : Nat × String) : List Ev :=
  let absIndex : Int := ctx.start_index + iq.1 - 1
  [.unitStart iq.1 absIndex] ++
    (if ctx.hasProgress then
      [.progress iq.1 ctx.total ("跳過第 " ++ intRepr absIndex ++ " 段")] else [])

/-- Capability-invocation events (the stage calls). -/
def isCap : Ev → Bool
  | .capTranscribe _ => true
  | .capPrecheck _ => true
  | _ => false

/-- The writes one processed unit performs, in application order. -/
def procWrites (ctx : LoopCtx) (iq : Nat × String) : List (FPath × FileContent) :=
  match stageResult ctx.env ctx.preview (ctx.segDir ++ [iq.2]) with
  | .error e =>
    [(unitPath ctx.segTextDir ctx.start_index iq.1 "_meta.json",
      .meta (failMeta ctx.segTextDir ctx.start_index iq.1 iq.2 e))]
  | .ok (t, rv, rd) =>
    [(unitPath ctx.segTextDir ctx.start_index iq.1 "_transcript.txt", .text t),
     (unitPath ctx.segTextDir ctx.start_index iq.1 "_review.txt", .text rv),
     (unitPath ctx.segTextDir ctx.start_index iq.1 "_revised.txt", .text rd),
     (unitPath ctx.segTextDir ctx.start_index iq.1 "_meta.json",
      .meta (succMeta ctx.env ctx.segDir ctx.segTextDir ctx.start_index iq.1
        iq.2 t rv rd))]

/-- Apply a list of writes in order. -/
def applyWrites (fs : FS) (ws : List (FPath × FileContent)) : FS :=
  ws.foldl (fun acc w => FS.write acc w.1 w.2) fs

theorem stageResult_err_t {env : Env} {pv : Bool} {p : FPath} {e : String}
    (h : env.transcribe p = .error e) : stageResult env pv p = .error e := by
  unfold stageResult
  rw [h]
  rfl

theorem stageResult_err_p {env : Env} {pv : Bool} {p : FPath} {t e : String}
    (ht : env.transcribe p = .ok t) (hp : env.ai_precheck t pv = .error e) :
    stageResult env pv p = .error e := by
  unfold stageResult
  rw [ht]
  show (env.ai_precheck t pv).bind _ = _
  rw [hp]
  rfl

theorem stageResult_ok {env : Env} {pv : Bool} {p : FPath} {t rv rd : String}
    (ht : env.transcribe p = .ok t) (hp : env.ai_precheck t pv = .ok (rv, rd)) :
    stageResult env pv p = .ok (t, rv, rd) := by
  unfold stageResult
  rw [ht]
  show (env.ai_precheck t pv).bind _ = _
  rw [hp]
  rfl

/-- When the unit's metadata file is absent, the skip test fails and the
step is exactly the processing branch, described by `procWrites`,
`procEvs` and `procOutcome`. -/
theorem stepParts_noskip (ctx : LoopCtx) (fs : FS) (iq : Nat × String)
    (h : FS.read fs (unitPath ctx.segTextDir ctx.start_index iq.1 "_meta.json") = none) :
    stepParts ctx fs iq =
      (applyWrites fs (procWrites ctx iq), procEvs ctx iq,
        procOutcome ctx.env ctx.preview ctx.segDir ctx.segTextDir ctx.start_index iq) := by
  obtain ⟨idx, fname⟩ := iq
  have hM : FS.fexists fs (unitPath ctx.segTextDir ctx.start_index idx "_meta.json") = false := by
    unfold FS.fexists
    rw [h]
    rfl
  have hcond : (!ctx.force &&
      allFourExist fs ctx.segTextDir ctx.start_index idx) = false := by
    unfold allFourExist
    rw [hM]
    simp
  unfold stepParts
  simp only [hcond, Bool.false_eq_true, if_false]
  cases ht : ctx.env.transcribe (ctx.segDir ++ [fname]) with
  | error e =>
    simp only [procWrites, procEvs, procOutcome, stageResult_err_t ht, ht]
    rfl
  | ok t =>
    cases hp : ctx.env.ai_precheck t ctx.preview with
    | error e =>
      simp only [procWrites, procEvs, procOutcome, stageResult_err_p ht hp, ht, hp]
      rfl
    | ok pr =>
      obtain ⟨rv, rd⟩ := pr
      simp only [procWrites, procEvs, procOutcome, stageResult_ok ht hp, ht, hp]
      rfl

/-- When `force` is off and all four artifacts exist, the step skips:
no writes, no capability events, and the stored record is reused. -/
theorem stepParts_skip (ctx : LoopCtx) (fs : FS) (iq : Nat × String)
    (hforce : ctx.force = false)
    (h : allFourExist fs ctx.segTextDir ctx.start_index iq.1 = true) :
    stepParts ctx fs iq =
      (fs, skipEvs ctx iq,
        skipLoad fs ctx.segTextDir ctx.start_index iq.1 iq.2) := by
  obtain ⟨idx, fname⟩ := iq
  have hcond : (!ctx.force && allFourExist fs ctx.segTextDir ctx.start_index idx) = true := by
    rw [hforce]
    simpa using h
  unfold stepParts
  simp only [hcond, if_true]
  rfl

/-- The loop's file store, described recursively over the unit list. -/
def loopFs (ctx : LoopCtx) (fs : FS) : List (Nat × String) → FS
  | [] => fs
  | iq :: rest => loopFs ctx (stepParts ctx fs iq).1 rest

/-- The loop's emitted events. -/
def loopEvs (ctx : LoopCtx) (fs : FS) : List (Nat × String) → List Ev
  | [] => []
  | iq :: rest => (stepParts ctx fs iq).2.1 ++ loopEvs ctx (stepParts ctx fs iq).1 rest

/-- The loop's manifest records. -/
def loopItems (ctx : LoopCtx) (fs : FS) : List (Nat × String) → List MetaRec
  | [] => []
  | iq :: rest => (stepParts ctx fs iq).2.2 :: loopItems ctx (stepParts ctx fs iq).1 rest

/-- Concatenation of per-unit event lists. -/
def flatEvs (f : Nat × String → List Ev) : List (Nat × String) → List Ev
  | [] => []
  | iq :: rest => f iq ++ flatEvs f rest

theorem unitLoop_eq (ctx : LoopCtx) :
    ∀ (l : List (Nat × String)) (fs : FS) (evs : List Ev) (items : List MetaRec),
    unitLoop ctx (fs, evs, items) l =
      (loopFs ctx fs l, evs ++ loopEvs ctx fs l, items ++ loopItems ctx fs l)
  | [], fs, evs, items => by simp [unitLoop, loopFs, loopEvs, loopItems]
  | iq :: rest, fs, evs, items => by
    show unitLoop ctx (unitStep ctx (fs, evs, items) iq) rest = _
    unfold unitStep
    rw [unitLoop_eq ctx rest]
    simp [loopFs, loopEvs, loopItems, List.append_assoc]

theorem applyWrites_read_preserves :
    ∀ (ws : List (FPath × FileContent)) (fs : FS) (p : FPath),
    (∀ w ∈ ws, w.1 ≠ p) → FS.read (applyWrites fs ws) p = FS.read fs p
  | [], _, _, _ => rfl
  | w :: ws, fs, p, h => by
    show FS.read (applyWrites (FS.write fs w.1 w.2) ws) p = _
    rw [applyWrites_read_preserves ws _ p fun v hv => h v (List.mem_cons_of_mem w hv)]
    exact FS.read_write_ne fs w.2 (h w (List.mem_cons_self w ws))

theorem applyWrites_fexists_mono :
    ∀ (ws : List (FPath × FileContent)) (fs : FS) (p : FPath),
    FS.fexists fs p = true → FS.fexists (applyWrites fs ws) p = true
  | [], _, _, h => h
  | w :: ws, fs, p, h =>
    applyWrites_fexists_mono ws _ p (FS.fexists_write fs p w.1 w.2 h)

theorem stepParts_fs_cases (ctx : LoopCtx) (fs : FS) (iq : Nat × String) :
    (stepParts ctx fs iq).1 = fs ∨
      (stepParts ctx fs iq).1 = applyWrites fs (procWrites ctx iq) := by
  obtain ⟨idx, fname⟩ := iq
  unfold stepParts
  by_cases hc : (!ctx.force && allFourExist fs ctx.segTextDir ctx.start_index idx) = true
  · left
    simp only [hc, if_true]
  · right
    simp only [Bool.not_eq_true] at hc
    simp only [hc, Bool.false_eq_true, if_false]
    cases ht : ctx.env.transcribe (ctx.segDir ++ [fname]) with
    | error e =>
      simp only [procWrites, stageResult_err_t ht, ht]
      rfl
    | ok t =>
      cases hp : ctx.env.ai_precheck t ctx.preview with
      | error e =>
        simp only [procWrites, stageResult_err_p ht hp, ht, hp]
        rfl
      | ok pr =>
        obtain ⟨rv, rd⟩ := pr
        simp only [procWrites, stageResult_ok ht hp, ht, hp]
        rfl

theorem procWrites_paths (ctx : LoopCtx) (iq : Nat × String) :
    ∀ w ∈ procWrites ctx iq, ∃ k ∈ KINDS,
      w.1 = unitPath ctx.segTextDir ctx.start_index iq.1 k := by
  unfold procWrites
  cases stageResult ctx.env ctx.preview (ctx.segDir ++ [iq.2]) with
  | error e =>
    intro w hw
    rw [List.mem_singleton.mp hw]
    exact ⟨"_meta.json", by decide, rfl⟩
  | ok r =>
    obtain ⟨t, rv, rd⟩ := r
    intro w hw
    simp only [List.mem_cons, List.mem_singleton, List.not_mem_nil, or_false] at hw
    rcases hw with rfl | rfl | rfl | rfl
    · exact ⟨"_transcript.txt", by decide, rfl⟩
    · exact ⟨"_review.txt", by decide, rfl⟩
    · exact ⟨"_revised.txt", by decide, rfl⟩
    · exact ⟨"_meta.json", by decide, rfl⟩

theorem stepParts_read_preserves (ctx : LoopCtx) (fs : FS) (iq : Nat × String)
    (p : FPath)
    (h : ∀ k ∈ KINDS, p ≠ unitPath ctx.segTextDir ctx.start_index iq.1 k) :
    FS.read (stepParts ctx fs iq).1 p = FS.read fs p := by
  rcases stepParts_fs_cases ctx fs iq with he | he <;> rw [he]
  apply applyWrites_read_preserves
  intro w hw
  obtain ⟨k, hk, hwp⟩ := procWrites_paths ctx iq w hw
  rw [hwp]
  exact fun heq => h k hk heq.symm

theorem stepParts_fexists_mono (ctx : LoopCtx) (fs : FS) (iq : Nat × String)
    (p : FPath) (h : FS.fexists fs p = true) :
    FS.fexists (stepParts ctx fs iq).1 p = true := by
  rcases stepParts_fs_cases ctx fs iq with he | he <;> rw [he]
  · exact h
  · exact applyWrites_fexists_mono _ fs p h

theorem loopFs_read_preserves (ctx : LoopCtx) :
    ∀ (l : List (Nat × String)) (fs : FS) (p : FPath),
    (∀ iq ∈ l, ∀ k ∈ KINDS, p ≠ unitPath ctx.segTextDir ctx.start_index iq.1 k) →
    FS.read (loopFs ctx fs l) p = FS.read fs p
  | [], _, _, _ => rfl
  | iq :: rest, fs, p, h => by
    show FS.read (loopFs ctx (stepParts ctx fs iq).1 rest) p = _
    rw [loopFs_read_preserves ctx rest _ p
      fun jq hjq => h jq (List.mem_cons_of_mem iq hjq)]
    exact stepParts_read_preserves ctx fs iq p (h iq (List.mem_cons_self iq rest))

theorem loopFs_fexists_mono (ctx : LoopCtx) :
    ∀ (l : List (Nat × String)) (fs : FS) (p : FPath),
    FS.fexists fs p = true → FS.fexists (loopFs ctx fs l) p = true
  | [], _, _, h => h
  | iq :: rest, fs, p, h =>
    loopFs_fexists_mono ctx rest _ p (stepParts_fexists_mono ctx fs iq p h)

/-- No unit in `l` has its metadata checkpoint in `fs` yet. -/
def Fresh (ctx : LoopCtx) (fs : FS) (l : List (Nat × String)) : Prop :=
  ∀ iq ∈ l, FS.read fs
    (unitPath ctx.segTextDir ctx.start_index iq.1 "_meta.json") = none

instance (ctx : LoopCtx) (fs : FS) (l : List (Nat × String)) :
    Decidable (Fresh ctx fs l) := by
  unfold Fresh
  infer_instance

/-- Indices in the list are pairwise distinct. -/
def DistinctIdx (l : List (Nat × String)) : Prop :=
  l.Pairwise fun a b => a.1 ≠ b.1

theorem fresh_tail (ctx : LoopCtx) {fs : FS} {iq : Nat × String}
    {rest : List (Nat × String)} (hP : DistinctIdx (iq :: rest))
    (hF : Fresh ctx fs (iq :: rest)) :
    Fresh ctx (stepParts ctx fs iq).1 rest := by
  intro jq hjq
  rw [stepParts_read_preserves ctx fs iq _ fun k hk =>
    unitPath_ne (by decide) hk fun he => List.rel_of_pairwise_cons hP hjq he.symm]
  exact hF jq (List.mem_cons_of_mem iq hjq)

theorem distinct_tail {iq : Nat × String} {rest : List (Nat × String)}
    (hP : DistinctIdx (iq :: rest)) : DistinctIdx rest :=
  hP.of_cons

theorem loopItems_noskip (ctx : LoopCtx) :
    ∀ (l : List (Nat × String)) (fs : FS), DistinctIdx l → Fresh ctx fs l →
    loopItems ctx fs l =
      l.map (procOutcome ctx.env ctx.preview ctx.segDir ctx.segTextDir ctx.start_index)
  | [], _, _, _ => rfl
  | iq :: rest, fs, hP, hF => by
    show (stepParts ctx fs iq).2.2 :: loopItems ctx (stepParts ctx fs iq).1 rest = _
    rw [stepParts_noskip ctx fs iq (hF iq (List.mem_cons_self iq rest)),
      loopItems_noskip ctx rest _ (distinct_tail hP) (by
        rw [← stepParts_noskip ctx fs iq (hF iq (List.mem_cons_self iq rest))]
        exact fresh_tail ctx hP hF)]
    rfl

theorem loopEvs_noskip (ctx : LoopCtx) :
    ∀ (l : List (Nat × String)) (fs : FS), DistinctIdx l → Fresh ctx fs l →
    loopEvs ctx fs l = flatEvs (procEvs ctx) l
  | [], _, _, _ => rfl
  | iq :: rest, fs, hP, hF => by
    show (stepParts ctx fs iq).2.1 ++ loopEvs ctx (stepParts ctx fs iq).1 rest = _
    rw [stepParts_noskip ctx fs iq (hF iq (List.mem_cons_self iq rest)),
      loopEvs_noskip ctx rest _ (distinct_tail hP) (by
        rw [← stepParts_noskip ctx fs iq (hF iq (List.mem_cons_self iq rest))]
        exact fresh_tail ctx hP hF)]
    rfl

theorem procWrites_meta_read (ctx : LoopCtx) (fs : FS) (iq : Nat × String) :
    FS.read (applyWrites fs (procWrites ctx iq))
      (unitPath ctx.segTextDir ctx.start_index iq.1 "_meta.json") =
    some (.meta (procOutcome ctx.env ctx.preview ctx.segDir ctx.segTextDir
      ctx.start_index iq)) := by
  unfold procWrites procOutcome
  cases stageResult ctx.env ctx.preview (ctx.segDir ++ [iq.2]) with
  | error e => exact FS.read_write_same fs _ _
  | ok r =>
    obtain ⟨t, rv, rd⟩ := r
    show FS.read (FS.write _ _ _) _ = _
    exact FS.read_write_same _ _ _

theorem loopFs_meta_readback (ctx : LoopCtx) :
    ∀ (l : List (Nat × String)) (fs : FS), DistinctIdx l → Fresh ctx fs l →
    ∀ iq ∈ l, FS.read (loopFs ctx fs l)
        (unitPath ctx.segTextDir ctx.start_index iq.1 "_meta.json") =
      some (.meta (procOutcome ctx.env ctx.preview ctx.segDir ctx.segTextDir
        ctx.start_index iq))
  | [], _, _, _, _, h => absurd h (List.not_mem_nil _)
  | iq :: rest, fs, hP, hF, jq, hjq => by
    show FS.read (loopFs ctx (stepParts ctx fs iq).1 rest) _ = _
    rcases List.mem_cons.mp hjq with rfl | hjq'
    · rw [loopFs_read_preserves ctx rest _ _ fun kq hkq k hk =>
        unitPath_ne (by decide) hk (List.rel_of_pairwise_cons hP hkq)]
      rw [stepParts_noskip ctx fs jq (hF jq (List.mem_cons_self jq rest))]
      exact procWrites_meta_read ctx fs jq
    · exact loopFs_meta_readback ctx rest _ (distinct_tail hP)
        (fresh_tail ctx hP hF) jq hjq'

theorem procWrites_text_read (ctx : LoopCtx) (fs : FS) (iq : Nat × String)
    {t rv rd : String}
    (h : stageResult ctx.env ctx.preview (ctx.segDir ++ [iq.2]) = .ok (t, rv, rd)) :
    FS.read (applyWrites fs (procWrites ctx iq))
        (unitPath ctx.segTextDir ctx.start_index iq.1 "_transcript.txt") =
      some (.text t) ∧
    FS.read (applyWrites fs (procWrites ctx iq))
        (unitPath ctx.segTextDir ctx.start_index iq.1 "_review.txt") =
      some (.text rv) ∧
    FS.read (applyWrites fs (procWrites ctx iq))
        (unitPath ctx.segTextDir ctx.start_index iq.1 "_revised.txt") =
      some (.text rd) := by
  unfold procWrites
  rw [h]
  have hne : ∀ ka kb : String, ka ∈ KINDS → kb ∈ KINDS → ka ≠ kb →
      unitPath ctx.segTextDir ctx.start_index iq.1 ka ≠
        unitPath ctx.segTextDir ctx.start_index iq.1 kb := by
    intro ka kb hka hkb hk heq
    exact hk (unitPath_inj hka hkb heq).2
  refine ⟨?_, ?_, ?_⟩
  · show FS.read (FS.write (FS.write (FS.write (FS.write fs _ _) _ _) _ _) _ _) _ = _
    rw [FS.read_write_ne _ _ (hne _ _ (by decide) (by decide) (by decide)),
      FS.read_write_ne _ _ (hne _ _ (by decide) (by decide) (by decide)),
      FS.read_write_ne _ _ (hne _ _ (by decide) (by decide) (by decide))]
    exact FS.read_write_same _ _ _
  · show FS.read (FS.write (FS.write (FS.write (FS.write fs _ _) _ _) _ _) _ _) _ = _
    rw [FS.read_write_ne _ _ (hne _ _ (by decide) (by decide) (by decide)),
      FS.read_write_ne _ _ (hne _ _ (by decide) (by decide) (by decide))]
    exact FS.read_write_same _ _ _
  · show FS.read (FS.write (FS.write (FS.write (FS.write fs _ _) _ _) _ _) _ _) _ = _
    rw [FS.read_write_ne _ _ (hne _ _ (by decide) (by decide) (by decide))]
    exact FS.read_write_same _ _ _

theorem loopFs_text_readback (ctx : LoopCtx) :
    ∀ (l : List (Nat × String)) (fs : FS), DistinctIdx l → Fresh ctx fs l →
    ∀ iq ∈ l, ∀ (t rv rd : String),
    stageResult ctx.env ctx.preview (ctx.segDir ++ [iq.2]) = .ok (t, rv, rd) →
    FS.read (loopFs ctx fs l)
        (unitPath ctx.segTextDir ctx.start_index iq.1 "_transcript.txt") =
      some (.text t) ∧
    FS.read (loopFs ctx fs l)
        (unitPath ctx.segTextDir ctx.start_index iq.1 "_review.txt") =
      some (.text rv) ∧
    FS.read (loopFs ctx fs l)
        (unitPath ctx.segTextDir ctx.start_index iq.1 "_revised.txt") =
      some (.text rd)
  | [], _, _, _, _, h => absurd h (List.not_mem_nil _)
  | iq :: rest, fs, hP, hF, jq, hjq => by
    intro t rv rd hstage
    rcases List.mem_cons.mp hjq with rfl | hjq'
    · have hpres : ∀ k ∈ KINDS, FS.read (loopFs ctx (stepParts ctx fs jq).1 rest)
          (unitPath ctx.segTextDir ctx.start_index jq.1 k) =
          FS.read (stepParts ctx fs jq).1
            (unitPath ctx.segTextDir ctx.start_index jq.1 k) := by
        intro k hk
        exact loopFs_read_preserves ctx rest _ _ fun kq hkq k2 hk2 =>
          unitPath_ne hk hk2 (List.rel_of_pairwise_cons hP hkq)
      show FS.read (loopFs ctx (stepParts ctx fs jq).1 rest) _ = _ ∧
        FS.read (loopFs ctx (stepParts ctx fs jq).1 rest) _ = _ ∧
        FS.read (loopFs ctx (stepParts ctx fs jq).1 rest) _ = _
      rw [hpres _ (by decide), hpres _ (by decide), hpres _ (by decide),
        stepParts_noskip ctx fs jq (hF jq (List.mem_cons_self jq rest))]
      exact procWrites_text_read ctx fs jq hstage
    · exact loopFs_text_readback ctx rest _ (distinct_tail hP)
        (fresh_tail ctx hP hF) jq hjq' t rv rd hstage

theorem loop_allskip (ctx : LoopCtx) (hforce : ctx.force = false) :
    ∀ (l : List (Nat × String)) (fs : FS),
    (∀ iq ∈ l, allFourExist fs ctx.segTextDir ctx.start_index iq.1 = true) →
    loopFs ctx fs l = fs ∧
    loopItems ctx fs l =
      l.map (fun iq => skipLoad fs ctx.segTextDir ctx.start_index iq.1 iq.2) ∧
    loopEvs ctx fs l = flatEvs (skipEvs ctx) l
  | [], _, _ => ⟨rfl, rfl, rfl⟩
  | iq :: rest, fs, hA => by
    have hstep := stepParts_skip ctx fs iq hforce (hA iq (List.mem_cons_self iq rest))
    have ih := loop_allskip ctx hforce rest fs
      fun jq hjq => hA jq (List.mem_cons_of_mem iq hjq)
    refine ⟨?_, ?_, ?_⟩
    · show loopFs ctx (stepParts ctx fs iq).1 rest = fs
      rw [hstep]
      exact ih.1
    · show (stepParts ctx fs iq).2.2 :: loopItems ctx (stepParts ctx fs iq).1 rest = _
      rw [hstep]
      show _ :: loopItems ctx fs rest = _
      rw [ih.2.1]
      rfl
    · show (stepParts ctx fs iq).2.1 ++ loopEvs ctx (stepParts ctx fs iq).1 rest = _
      rw [hstep]
      show _ ++ loopEvs ctx fs rest = _
      rw [ih.2.2]
      rfl

theorem enumFrom_mem_ge : ∀ {k : Nat} {l : List String} {iq : Nat × String},
    iq ∈ enumFrom k l → k ≤ iq.1
  | _, [], _, h => absurd h (List.not_mem_nil _)
  | k, a :: as, iq, h => by
    rcases List.mem_cons.mp h with rfl | h'
    · exact Nat.le_refl k
    · exact Nat.le_of_succ_le (enumFrom_mem_ge h')

theorem enumFrom_distinct : ∀ (k : Nat) (l : List String),
    DistinctIdx (enumFrom k l)
  | _, [] => List.Pairwise.nil
  | k, a :: as => by
    refine List.Pairwise.cons ?_ (enumFrom_distinct (k + 1) as)
    intro jq hjq
    have := enumFrom_mem_ge hjq
    simp only [ne_eq]
    omega

theorem enumFrom_map_snd : ∀ (k : Nat) (l : List String),
    (enumFrom k l).map (fun iq => iq.2) = l
  | _, [] => rfl
  | k, a :: as => by
    show a :: (enumFrom (k + 1) as).map (fun iq => iq.2) = a :: as
    rw [enumFrom_map_snd (k + 1) as]

theorem enumFrom_length : ∀ (k : Nat) (l : List String),
    (enumFrom k l).length = l.length
  | _, [] => rfl
  | k, a :: as => by
    show (enumFrom (k + 1) as).length + 1 = as.length + 1
    rw [enumFrom_length (k + 1) as]

/-! ### Run-level helpers -/

/-- The loop context a run constructs. -/
def mkCtx (env : Env) (preview force hasProgress : Bool)
    (onProgress : Nat → Nat → String → Except String Unit)
    (segDir : FPath) (job_id : String) (start_index : Int) (total : Nat) :
    LoopCtx :=
  { env, preview, force, hasProgress, onProgress, segDir,
    segTextDir := SEG_TEXT_ROOT ++ [job_id], start_index, total }

theorem path_ne_of_name_ne {d : FPath} {a b : String} (h : a ≠ b) :
    d ++ [a] ≠ d ++ [b] :=
  fun he => h (listAppend_singleton_inj he)

theorem segtext_ne_logs {jid jid' a b : String} :
    (SEG_TEXT_ROOT ++ [jid]) ++ [a] ≠ (LOGS_ROOT ++ [jid']) ++ [b] := by
  intro h
  simp [SEG_TEXT_ROOT, LOGS_ROOT] at h

theorem segtext_ne_final {jid jid' a b : String} :
    (SEG_TEXT_ROOT ++ [jid]) ++ [a] ≠ (FINAL_ROOT ++ [jid']) ++ [b] := by
  intro h
  simp [SEG_TEXT_ROOT, FINAL_ROOT] at h

theorem logs_ne_final {jid jid' a b : String} :
    (LOGS_ROOT ++ [jid]) ++ [a] ≠ (FINAL_ROOT ++ [jid']) ++ [b] := by
  intro h
  simp [LOGS_ROOT, FINAL_ROOT] at h

theorem after_enum_eq (env : Env) (fs0 : FS) (segDir : FPath)
    (all root : List String) (pv force : Bool) (si : Int) (maxseg : Option Int)
    (hasP : Bool) (onP : Nat → Nat → String → Except String Unit)
    (h : all.isEmpty = false) :
    run_batch_after_enum env fs0 segDir all root pv force si maxseg hasP onP =
      postLoop env segDir (job_id_from_dir (pathName segDir) env.now) pv si
        (windowOf all si maxseg).length
        (loopFs (mkCtx env pv force hasP onP segDir
            (job_id_from_dir (pathName segDir) env.now) si
            (windowOf all si maxseg).length) fs0
          (enumFrom 1 (windowOf all si maxseg)))
        ((if hasP then
            [Ev.progress 0 (windowOf all si maxseg).length "開始處理"] else []) ++
          loopEvs (mkCtx env pv force hasP onP segDir
              (job_id_from_dir (pathName segDir) env.now) si
              (windowOf all si maxseg).length) fs0
            (enumFrom 1 (windowOf all si maxseg)))
        (loopItems (mkCtx env pv force hasP onP segDir
            (job_id_from_dir (pathName segDir) env.now) si
            (windowOf all si maxseg).length) fs0
          (enumFrom 1 (windowOf all si maxseg))) := by
  unfold run_batch_after_enum
  simp only [h, Bool.false_eq_true, if_false, unitLoop_eq, List.nil_append]
  rfl

theorem postLoop_items (env : Env) (segDir : FPath) (jid : String) (pv : Bool)
    (si : Int) (total : Nat) (fs1 : FS) (evs1 : List Ev) (items : List MetaRec) :
    (postLoop env segDir jid pv si total fs1 evs1 items).items = items := by
  simp only [postLoop]
  split
  · rfl
  · split <;> rfl

theorem postLoop_events (env : Env) (segDir : FPath) (jid : String) (pv : Bool)
    (si : Int) (total : Nat) (fs1 : FS) (evs1 : List Ev) (items : List MetaRec) :
    (postLoop env segDir jid pv si total fs1 evs1 items).events = evs1 := by
  simp only [postLoop]
  split
  · rfl
  · split <;> rfl

theorem postLoop_read_preserves (env : Env) (segDir : FPath) (jid : String)
    (pv : Bool) (si : Int) (total : Nat) (fs1 : FS) (evs1 : List Ev)
    (items : List MetaRec) (p : FPath)
    (hp1 : ∀ name : String, p ≠ (LOGS_ROOT ++ [jid]) ++ [name])
    (hp2 : ∀ name : String, p ≠ (FINAL_ROOT ++ [jid]) ++ [name]) :
    FS.read (postLoop env segDir jid pv si total fs1 evs1 items).fs p =
      FS.read fs1 p := by
  simp only [postLoop]
  split
  · exact FS.read_write_ne fs1 _ fun he => hp1 _ he.symm
  · split
    · show FS.read (FS.write (FS.write (FS.write (FS.write fs1 _ _) _ _) _ _) _ _) p = _
      rw [FS.read_write_ne _ _ fun he => hp2 _ he.symm,
        FS.read_write_ne _ _ fun he => hp2 _ he.symm,
        FS.read_write_ne _ _ fun he => hp2 _ he.symm,
        FS.read_write_ne _ _ fun he => hp1 _ he.symm]
    · show FS.read (FS.write (FS.write (FS.write (FS.write (FS.write (FS.write
          (FS.write fs1 _ _) _ _) _ _) _ _) _ _) _ _) _ _) p = _
      rw [FS.read_write_ne _ _ fun he => hp2 _ he.symm,
        FS.read_write_ne _ _ fun he => hp2 _ he.symm,
        FS.read_write_ne _ _ fun he => hp2 _ he.symm,
        FS.read_write_ne _ _ fun he => hp2 _ he.symm,
        FS.read_write_ne _ _ fun he => hp2 _ he.symm,
        FS.read_write_ne _ _ fun he => hp2 _ he.symm,
        FS.read_write_ne _ _ fun he => hp1 _ he.symm]

theorem postLoop_fexists_mono (env : Env) (segDir : FPath) (jid : String)
    (pv : Bool) (si : Int) (total : Nat) (fs1 : FS) (evs1 : List Ev)
    (items : List MetaRec) (p : FPath) (h : FS.fexists fs1 p = true) :
    FS.fexists (postLoop env segDir jid pv si total fs1 evs1 items).fs p = true := by
  simp only [postLoop]
  split
  · exact FS.fexists_write _ _ _ _ h
  · split
    · exact FS.fexists_write _ _ _ _ (FS.fexists_write _ _ _ _
        (FS.fexists_write _ _ _ _ (FS.fexists_write _ _ _ _ h)))
    · exact FS.fexists_write _ _ _ _ (FS.fexists_write _ _ _ _
        (FS.fexists_write _ _ _ _ (FS.fexists_write _ _ _ _
          (FS.fexists_write _ _ _ _ (FS.fexists_write _ _ _ _
            (FS.fexists_write _ _ _ _ h))))))

/-! ### Merged-document evaluation -/

theorem pathName_append (d : FPath) (a : String) : pathName (d ++ [a]) = a := by
  simp [pathName, List.getLastD_concat]

/-- The stage texts of a unit (meaningful when the stages succeeded). -/
def stageTexts (env : Env) (pv : Bool) (p : FPath) : String × String × String :=
  match stageResult env pv p with
  | .ok r => r
  | .error _ => ("", "", "")

theorem stageTexts_of_ok {env : Env} {pv : Bool} {p : FPath}
    {r : String × String × String} (h : stageResult env pv p = .ok r) :
    stageTexts env pv p = r := by
  unfold stageTexts
  rw [h]

theorem procOutcome_of_err {env : Env} {pv : Bool} {segDir std : FPath} {si : Int}
    {iq : Nat × String} {e : String}
    (h : stageResult env pv (segDir ++ [iq.2]) = .error e) :
    procOutcome env pv segDir std si iq = failMeta std si iq.1 iq.2 e := by
  unfold procOutcome
  rw [h]

theorem procOutcome_of_ok {env : Env} {pv : Bool} {segDir std : FPath} {si : Int}
    {iq : Nat × String} {t rv rd : String}
    (h : stageResult env pv (segDir ++ [iq.2]) = .ok (t, rv, rd)) :
    procOutcome env pv segDir std si iq = succMeta env segDir std si iq.1 iq.2 t rv rd := by
  unfold procOutcome
  rw [h]

theorem procOutcome_pathsD (env : Env) (pv : Bool) (segDir std : FPath) (si : Int)
    (iq : Nat × String) :
    (procOutcome env pv segDir std si iq).pathsD = unitPaths std si iq.1 := by
  unfold procOutcome
  cases stageResult env pv (segDir ++ [iq.2]) with
  | error e => rfl
  | ok r =>
    obtain ⟨t, rv, rd⟩ := r
    rfl

theorem procOutcome_audio (env : Env) (pv : Bool) (segDir std : FPath) (si : Int)
    (iq : Nat × String) :
    (procOutcome env pv segDir std si iq).audio = iq.2 := by
  unfold procOutcome
  cases stageResult env pv (segDir ++ [iq.2]) with
  | error e => rfl
  | ok r =>
    obtain ⟨t, rv, rd⟩ := r
    rfl

theorem procOutcome_seg_id (env : Env) (pv : Bool) (segDir std : FPath) (si : Int)
    (iq : Nat × String) :
    (procOutcome env pv segDir std si iq).seg_id = fmt02 (si + iq.1 - 1) := by
  unfold procOutcome
  cases stageResult env pv (segDir ++ [iq.2]) with
  | error e => rfl
  | ok r =>
    obtain ⟨t, rv, rd⟩ := r
    rfl

theorem procOutcome_ok_stage {env : Env} {pv : Bool} {segDir std : FPath}
    {si : Int} {iq : Nat × String}
    (h : (procOutcome env pv segDir std si iq).ok = true) :
    stageResult env pv (segDir ++ [iq.2]) =
      .ok (stageTexts env pv (segDir ++ [iq.2])) := by
  revert h
  unfold procOutcome stageTexts
  cases stageResult env pv (segDir ++ [iq.2]) with
  | error e => intro h; exact absurd h (by simp [failMeta])
  | ok r =>
    obtain ⟨t, rv, rd⟩ := r
    intro _
    rfl

theorem stitchGo_pairs (fs : FS) (hp : String) :
    ∀ (prs : List (FPath × String)) (i : Nat),
    (∀ pr ∈ prs, FS.read fs pr.1 = some (.text pr.2)) →
    stitchGo fs hp i (prs.map fun pr => pr.1) =
      .ok ((enumFrom i prs).map fun ip =>
        stitchChunk hp ip.1 (pathName ip.2.1) ip.2.2)
  | [], _, _ => rfl
  | pr :: prs, i, h => by
    show stitchGo fs hp i (pr.1 :: prs.map fun pr => pr.1) = _
    unfold stitchGo
    rw [h pr (List.mem_cons_self pr prs),
      stitchGo_pairs fs hp prs (i + 1) fun q hq => h q (List.mem_cons_of_mem pr hq)]
    rfl

theorem enumFrom_map {α β : Type} (g : α → β) :
    ∀ (k : Nat) (l : List α),
    enumFrom k (l.map g) = (enumFrom k l).map fun ip => (ip.1, g ip.2)
  | _, [] => rfl
  | k, a :: as => by
    show (k, g a) :: enumFrom (k + 1) (as.map g) = _
    rw [enumFrom_map g (k + 1) as]
    rfl

/-- The per-kind merged document of a unit list, ranging only over the
units whose outcome is successful. -/
def mergedSpec (env : Env) (pv : Bool) (segDir std : FPath) (si : Int)
    (hp kind : String) (pick : String × String × String → String)
    (l : List (Nat × String)) : String :=
  String.intercalate "\n"
    ((enumFrom 1 (l.filter fun iq => (procOutcome env pv segDir std si iq).ok)).map
      fun ip => stitchChunk hp ip.1 (segName si ip.2.1 kind)
        (pick (stageTexts env pv (segDir ++ [ip.2.2]))))

theorem filter_ok_paths (env : Env) (pv : Bool) (segDir std : FPath) (si : Int)
    (key kind : String)
    (hlk : ∀ idx : Nat, (unitPaths std si idx).lookup key =
      some (unitPath std si idx kind)) :
    ∀ l : List (Nat × String),
    (((l.map (procOutcome env pv segDir std si)).filter fun it => it.ok).filterMap
        fun it => it.pathsD.lookup key) =
      (l.filter fun iq => (procOutcome env pv segDir std si iq).ok).map
        fun iq => unitPath std si iq.1 kind
  | [] => rfl
  | iq :: rest => by
    show ((procOutcome env pv segDir std si iq ::
        rest.map (procOutcome env pv segDir std si)).filter _).filterMap _ = _
    rw [List.filter_cons, List.filter_cons]
    by_cases hok : (procOutcome env pv segDir std si iq).ok = true
    · simp only [hok, if_true]
      rw [List.filterMap_cons]
      rw [procOutcome_pathsD, hlk iq.1]
      rw [filter_ok_paths env pv segDir std si key kind hlk rest]
      rfl
    · simp only [Bool.not_eq_true] at hok
      simp only [hok, Bool.false_eq_true, if_false]
      exact filter_ok_paths env pv segDir std si key kind hlk rest

theorem stitch_spec (env : Env) (pv : Bool) (segDir std : FPath) (si : Int)
    (fs2 : FS) (hp kind : String) (pick : String × String × String → String)
    (okL : List (Nat × String))
    (hread : ∀ iq ∈ okL, FS.read fs2 (unitPath std si iq.1 kind) =
      some (.text (pick (stageTexts env pv (segDir ++ [iq.2]))))) :
    stitch fs2 hp (okL.map fun iq => unitPath std si iq.1 kind) =
      .ok (String.intercalate "\n" ((enumFrom 1 okL).map fun ip =>
        stitchChunk hp ip.1 (segName si ip.2.1 kind)
          (pick (stageTexts env pv (segDir ++ [ip.2.2]))))) := by
  unfold stitch
  have hmm : okL.map (fun iq => unitPath std si iq.1 kind) =
      (okL.map fun iq => (unitPath std si iq.1 kind,
        pick (stageTexts env pv (segDir ++ [iq.2])))).map fun pr => pr.1 := by
    rw [List.map_map]
    rfl
  rw [hmm, stitchGo_pairs fs2 hp _ 1 (by
    intro pr hpr
    obtain ⟨iq, hiq, hpr2⟩ := List.mem_map.mp hpr
    rw [← hpr2]
    exact hread iq hiq)]
  rw [enumFrom_map, List.map_map]
  show Except.ok (String.intercalate "\n" _) = _
  congr 1
  congr 1
  apply List.map_congr_left
  intro ip _
  show stitchChunk hp ip.1 (pathName (unitPath std si ip.2.1 kind)) _ = _
  rw [show pathName (unitPath std si ip.2.1 kind) = segName si ip.2.1 kind from
    pathName_append std _]

theorem mergedOf_spec (env : Env) (pv : Bool) (segDir std : FPath) (si : Int)
    (fs2 : FS) (l : List (Nat × String))
    (hT : ∀ iq ∈ l.filter fun iq => (procOutcome env pv segDir std si iq).ok,
      FS.read fs2 (unitPath std si iq.1 "_transcript.txt") =
        some (.text (stageTexts env pv (segDir ++ [iq.2])).1))
    (hRw : ∀ iq ∈ l.filter fun iq => (procOutcome env pv segDir std si iq).ok,
      FS.read fs2 (unitPath std si iq.1 "_review.txt") =
        some (.text (stageTexts env pv (segDir ++ [iq.2])).2.1))
    (hRv : ∀ iq ∈ l.filter fun iq => (procOutcome env pv segDir std si iq).ok,
      FS.read fs2 (unitPath std si iq.1 "_revised.txt") =
        some (.text (stageTexts env pv (segDir ++ [iq.2])).2.2)) :
    mergedOf fs2 (l.map (procOutcome env pv segDir std si)) =
      .ok (mergedSpec env pv segDir std si "TRANSCRIPT SEG" "_transcript.txt"
          (fun r => r.1) l,
        mergedSpec env pv segDir std si "REVIEW SEG" "_review.txt"
          (fun r => r.2.1) l,
        mergedSpec env pv segDir std si "REVISED SEG" "_revised.txt"
          (fun r => r.2.2) l) := by
  simp only [mergedOf]
  rw [filter_ok_paths env pv segDir std si "transcript" "_transcript.txt"
      (fun _ => rfl) l,
    filter_ok_paths env pv segDir std si "review" "_review.txt"
      (fun _ => rfl) l,
    filter_ok_paths env pv segDir std si "revised" "_revised.txt"
      (fun _ => rfl) l]
  by_cases hE : (l.filter fun iq => (procOutcome env pv segDir std si iq).ok) = []
  · rw [hE]
    simp only [mergedSpec, hE]
    rfl
  · have hne : ∀ kind : String,
        ((l.filter fun iq => (procOutcome env pv segDir std si iq).ok).map
          fun iq => unitPath std si iq.1 kind).isEmpty = false := by
      intro kind
      cases hm : (l.filter fun iq => (procOutcome env pv segDir std si iq).ok).map
          fun iq => unitPath std si iq.1 kind with
      | nil => exact absurd (List.map_eq_nil_iff.mp hm) hE
      | cons a as => rfl
    simp only [hne "_transcript.txt", hne "_review.txt", hne "_revised.txt",
      Bool.false_eq_true, if_false]
    rw [stitch_spec env pv segDir std si fs2 "TRANSCRIPT SEG" "_transcript.txt"
        (fun r => r.1) _ hT,
      stitch_spec env pv segDir std si fs2 "REVIEW SEG" "_review.txt"
        (fun r => r.2.1) _ hRw,
      stitch_spec env pv segDir std si fs2 "REVISED SEG" "_revised.txt"
        (fun r => r.2.2) _ hRv]
    rfl

/-- The manifest record `postLoop` persists. -/
def manifestOf (env : Env) (segDir : FPath) (jid : String) (pv : Bool)
    (si : Int) (total : Nat) (items : List MetaRec) : ManifestRec :=
  { job_id := jid, segments_dir := renderPath segDir,
    created_at := env.created_at, preview := pv, items := items,
    start_index := si, count := total }

/-- The manifest path of a job. -/
def manifestPath (jid : String) : FPath :=
  (LOGS_ROOT ++ [jid]) ++ ["batch_manifest_" ++ jid ++ ".json"]

theorem postLoop_of_merged_ok (env : Env) (segDir : FPath) (jid : String)
    (pv : Bool) (si : Int) (total : Nat) (fs1 : FS) (evs1 : List Ev)
    (items : List MetaRec) {mt mrw mrv : String}
    (hM : mergedOf (FS.write fs1 (manifestPath jid)
        (.manifestC (manifestOf env segDir jid pv si total items))) items =
      .ok (mt, mrw, mrv)) :
    FS.read (postLoop env segDir jid pv si total fs1 evs1 items).fs
        ((FINAL_ROOT ++ [jid]) ++ ["transcript.txt"]) = some (.text mt) ∧
    FS.read (postLoop env segDir jid pv si total fs1 evs1 items).fs
        ((FINAL_ROOT ++ [jid]) ++ ["transcript_review.txt"]) = some (.text mrw) ∧
    FS.read (postLoop env segDir jid pv si total fs1 evs1 items).fs
        ((FINAL_ROOT ++ [jid]) ++ ["transcript_revised.txt"]) = some (.text mrv) ∧
    (postLoop env segDir jid pv si total fs1 evs1 items).ret =
      (match run_analysis env mrv false with
       | .error e => .error e
       | .ok _ => .ok ((FINAL_ROOT ++ [jid]) ++ ["meeting_summary.docx"])) := by
  have hM2 := hM
  simp only [manifestPath, manifestOf] at hM2
  refine ⟨?_, ?_, ?_, ?_⟩
  · simp only [postLoop]
    rw [hM2]
    dsimp only
    split
    · rw [FS.read_write_ne _ _ (path_ne_of_name_ne (by decide)),
        FS.read_write_ne _ _ (path_ne_of_name_ne (by decide))]
      exact FS.read_write_same _ _ _
    · rw [FS.read_write_ne _ _ (path_ne_of_name_ne (by decide)),
        FS.read_write_ne _ _ (path_ne_of_name_ne (by decide)),
        FS.read_write_ne _ _ (path_ne_of_name_ne (by decide)),
        FS.read_write_ne _ _ (path_ne_of_name_ne (by decide)),
        FS.read_write_ne _ _ (path_ne_of_name_ne (by decide))]
      exact FS.read_write_same _ _ _
  · simp only [postLoop]
    rw [hM2]
    dsimp only
    split
    · rw [FS.read_write_ne _ _ (path_ne_of_name_ne (by decide))]
      exact FS.read_write_same _ _ _
    · rw [FS.read_write_ne _ _ (path_ne_of_name_ne (by decide)),
        FS.read_write_ne _ _ (path_ne_of_name_ne (by decide)),
        FS.read_write_ne _ _ (path_ne_of_name_ne (by decide)),
        FS.read_write_ne _ _ (path_ne_of_name_ne (by decide))]
      exact FS.read_write_same _ _ _
  · simp only [postLoop]
    rw [hM2]
    dsimp only
    split
    · exact FS.read_write_same _ _ _
    · rw [FS.read_write_ne _ _ (path_ne_of_name_ne (by decide)),
        FS.read_write_ne _ _ (path_ne_of_name_ne (by decide)),
        FS.read_write_ne _ _ (path_ne_of_name_ne (by decide))]
      exact FS.read_write_same _ _ _
  · simp only [postLoop]
    rw [hM2]
    dsimp only
    split
    · next e heq =>
        rw [heq]
    · next r heq =>
        rw [heq]

theorem mergedOf_no_ok (fs2 : FS) (items : List MetaRec)
    (h : items.filter (fun it => it.ok) = []) :
    mergedOf fs2 items = .ok ("", "", "") := by
  simp only [mergedOf, h]
  rfl

theorem postLoop_no_ok (env : Env) (segDir : FPath) (jid : String) (pv : Bool)
    (si : Int) (total : Nat) (fs1 : FS) (evs1 : List Ev) (items : List MetaRec)
    (h : items.filter (fun it => it.ok) = []) :
    (postLoop env segDir jid pv si total fs1 evs1 items).ret =
        .error (.valueError "無效文字內容") ∧
    FS.read (postLoop env segDir jid pv si total fs1 evs1 items).fs
        ((FINAL_ROOT ++ [jid]) ++ ["transcript.txt"]) = some (.text "") ∧
    FS.read (postLoop env segDir jid pv si total fs1 evs1 items).fs
        ((FINAL_ROOT ++ [jid]) ++ ["transcript_review.txt"]) = some (.text "") ∧
    FS.read (postLoop env segDir jid pv si total fs1 evs1 items).fs
        ((FINAL_ROOT ++ [jid]) ++ ["transcript_revised.txt"]) = some (.text "") ∧
    FS.read (postLoop env segDir jid pv si total fs1 evs1 items).fs
        (manifestPath jid) =
      some (.manifestC (manifestOf env segDir jid pv si total items)) ∧
    (∀ name ∈ (["meeting_summary.txt", "meeting_summary.docx",
        "meeting_summary.json"] : List String),
      FS.read (postLoop env segDir jid pv si total fs1 evs1 items).fs
          ((FINAL_ROOT ++ [jid]) ++ [name]) =
        FS.read fs1 ((FINAL_ROOT ++ [jid]) ++ [name])) := by
  have hA : run_analysis env "" false = .error (.valueError "無效文字內容") := rfl
  refine ⟨?_, ?_, ?_, ?_, ?_, ?_⟩
  · simp only [postLoop]
    rw [mergedOf_no_ok _ items h]
    dsimp only
    rw [hA]
  · simp only [postLoop]
    rw [mergedOf_no_ok _ items h]
    dsimp only
    rw [hA]
    dsimp only
    rw [FS.read_write_ne _ _ (path_ne_of_name_ne (by decide)),
      FS.read_write_ne _ _ (path_ne_of_name_ne (by decide))]
    exact FS.read_write_same _ _ _
  · simp only [postLoop]
    rw [mergedOf_no_ok _ items h]
    dsimp only
    rw [hA]
    dsimp only
    rw [FS.read_write_ne _ _ (path_ne_of_name_ne (by decide))]
    exact FS.read_write_same _ _ _
  · simp only [postLoop]
    rw [mergedOf_no_ok _ items h]
    dsimp only
    rw [hA]
    dsimp only
    exact FS.read_write_same _ _ _
  · simp only [postLoop, manifestPath, manifestOf]
    rw [mergedOf_no_ok _ items h]
    dsimp only
    rw [hA]
    dsimp only
    rw [FS.read_write_ne _ _ logs_ne_final.symm,
      FS.read_write_ne _ _ logs_ne_final.symm,
      FS.read_write_ne _ _ logs_ne_final.symm]
    exact FS.read_write_same _ _ _
  · intro name hname
    simp only [postLoop]
    rw [mergedOf_no_ok _ items h]
    dsimp only
    rw [hA]
    dsimp only
    fin_cases hname <;>
      rw [FS.read_write_ne _ _ (path_ne_of_name_ne (by decide)),
        FS.read_write_ne _ _ (path_ne_of_name_ne (by decide)),
        FS.read_write_ne _ _ (path_ne_of_name_ne (by decide)),
        FS.read_write_ne _ _ logs_ne_final]

/-! ### The master description of a fresh (no-skip) run -/

theorem job_id_of_pat {name now : String} (h : jobDirPat name = true) :
    job_id_from_dir name now = name := by
  unfold job_id_from_dir
  rw [h]
  rfl

theorem run_noskip (env : Env) (fs0 : FS) (segDir : FPath)
    (listing root : List String) (pv force : Bool) (si : Int)
    (maxseg : Option Int) (hasP : Bool)
    (onP : Nat → Nat → String → Except String Unit)
    (jid : String) (hjid : jid = job_id_from_dir (pathName segDir) env.now)
    (w : List String) (hw : w = windowOf (list_segments listing) si maxseg)
    (lw : List (Nat × String)) (hlw : lw = enumFrom 1 w)
    (ctx : LoopCtx) (hctx : ctx = mkCtx env pv force hasP onP segDir jid si w.length)
    (hne : (list_segments listing).isEmpty = false)
    (hF : Fresh ctx fs0 lw)
    (run : RunOut)
    (hrun : run = run_batch_process env fs0 segDir true listing root pv force si
      maxseg hasP onP) :
    run.items = lw.map (procOutcome env pv segDir (SEG_TEXT_ROOT ++ [jid]) si) ∧
    run.events = (if hasP then [Ev.progress 0 w.length "開始處理"] else []) ++
      flatEvs (procEvs ctx) lw ∧
    (∀ iq ∈ lw, FS.read run.fs
        (unitPath (SEG_TEXT_ROOT ++ [jid]) si iq.1 "_meta.json") =
      some (.meta (procOutcome env pv segDir (SEG_TEXT_ROOT ++ [jid]) si iq))) ∧
    (∀ iq ∈ lw, (procOutcome env pv segDir (SEG_TEXT_ROOT ++ [jid]) si iq).ok = true →
      FS.read run.fs (unitPath (SEG_TEXT_ROOT ++ [jid]) si iq.1 "_transcript.txt") =
        some (.text (stageTexts env pv (segDir ++ [iq.2])).1) ∧
      FS.read run.fs (unitPath (SEG_TEXT_ROOT ++ [jid]) si iq.1 "_review.txt") =
        some (.text (stageTexts env pv (segDir ++ [iq.2])).2.1) ∧
      FS.read run.fs (unitPath (SEG_TEXT_ROOT ++ [jid]) si iq.1 "_revised.txt") =
        some (.text (stageTexts env pv (segDir ++ [iq.2])).2.2)) ∧
    FS.read run.fs ((FINAL_ROOT ++ [jid]) ++ ["transcript.txt"]) =
      some (.text (mergedSpec env pv segDir (SEG_TEXT_ROOT ++ [jid]) si
        "TRANSCRIPT SEG" "_transcript.txt" (fun r => r.1) lw)) ∧
    FS.read run.fs ((FINAL_ROOT ++ [jid]) ++ ["transcript_review.txt"]) =
      some (.text (mergedSpec env pv segDir (SEG_TEXT_ROOT ++ [jid]) si
        "REVIEW SEG" "_review.txt" (fun r => r.2.1) lw)) ∧
    FS.read run.fs ((FINAL_ROOT ++ [jid]) ++ ["transcript_revised.txt"]) =
      some (.text (mergedSpec env pv segDir (SEG_TEXT_ROOT ++ [jid]) si
        "REVISED SEG" "_revised.txt" (fun r => r.2.2) lw)) ∧
    run.ret = (match run_analysis env (mergedSpec env pv segDir
        (SEG_TEXT_ROOT ++ [jid]) si "REVISED SEG" "_revised.txt"
        (fun r => r.2.2) lw) false with
      | .error e => .error e
      | .ok _ => .ok ((FINAL_ROOT ++ [jid]) ++ ["meeting_summary.docx"])) := by
  have hstd : ctx.segTextDir = SEG_TEXT_ROOT ++ [jid] := by rw [hctx]; rfl
  have henv : ctx.env = env := by rw [hctx]; rfl
  have hpv : ctx.preview = pv := by rw [hctx]; rfl
  have hsd : ctx.segDir = segDir := by rw [hctx]; rfl
  have hsi : ctx.start_index = si := by rw [hctx]; rfl
  have hDist : DistinctIdx lw := by rw [hlw]; exact enumFrom_distinct 1 w
  have hrun2 : run = run_batch_after_enum env fs0 segDir (list_segments listing)
      (list_segments root) pv force si maxseg hasP onP := hrun
  rw [after_enum_eq env fs0 segDir (list_segments listing) (list_segments root)
    pv force si maxseg hasP onP hne] at hrun2
  rw [← hjid, ← hw, ← hlw, ← hctx] at hrun2
  have hitems : loopItems ctx fs0 lw =
      lw.map (procOutcome env pv segDir (SEG_TEXT_ROOT ++ [jid]) si) := by
    rw [loopItems_noskip ctx lw fs0 hDist hF, henv, hpv, hsd, hstd, hsi]
  have hmetaRB : ∀ iq ∈ lw, FS.read (loopFs ctx fs0 lw)
      (unitPath (SEG_TEXT_ROOT ++ [jid]) si iq.1 "_meta.json") =
      some (.meta (procOutcome env pv segDir (SEG_TEXT_ROOT ++ [jid]) si iq)) := by
    intro iq hiq
    have := loopFs_meta_readback ctx lw fs0 hDist hF iq hiq
    rw [henv, hpv, hsd, hstd, hsi] at this
    exact this
  have htextRB : ∀ iq ∈ lw,
      (procOutcome env pv segDir (SEG_TEXT_ROOT ++ [jid]) si iq).ok = true →
      FS.read (loopFs ctx fs0 lw)
          (unitPath (SEG_TEXT_ROOT ++ [jid]) si iq.1 "_transcript.txt") =
        some (.text (stageTexts env pv (segDir ++ [iq.2])).1) ∧
      FS.read (loopFs ctx fs0 lw)
          (unitPath (SEG_TEXT_ROOT ++ [jid]) si iq.1 "_review.txt") =
        some (.text (stageTexts env pv (segDir ++ [iq.2])).2.1) ∧
      FS.read (loopFs ctx fs0 lw)
          (unitPath (SEG_TEXT_ROOT ++ [jid]) si iq.1 "_revised.txt") =
        some (.text (stageTexts env pv (segDir ++ [iq.2])).2.2) := by
    intro iq hiq hok
    have hst := procOutcome_ok_stage hok
    have := loopFs_text_readback ctx lw fs0 hDist hF iq hiq
      (stageTexts env pv (segDir ++ [iq.2])).1
      (stageTexts env pv (segDir ++ [iq.2])).2.1
      (stageTexts env pv (segDir ++ [iq.2])).2.2
      (by rw [henv, hpv, hsd]; exact hst)
    rw [hstd, hsi] at this
    exact this
  have hM : mergedOf (FS.write (loopFs ctx fs0 lw) (manifestPath jid)
      (.manifestC (manifestOf env segDir jid pv si w.length
        (loopItems ctx fs0 lw)))) (loopItems ctx fs0 lw) =
      .ok (mergedSpec env pv segDir (SEG_TEXT_ROOT ++ [jid]) si
          "TRANSCRIPT SEG" "_transcript.txt" (fun r => r.1) lw,
        mergedSpec env pv segDir (SEG_TEXT_ROOT ++ [jid]) si
          "REVIEW SEG" "_review.txt" (fun r => r.2.1) lw,
        mergedSpec env pv segDir (SEG_TEXT_ROOT ++ [jid]) si
          "REVISED SEG" "_revised.txt" (fun r => r.2.2) lw) := by
    rw [hitems]
    apply mergedOf_spec
    · intro iq hiq
      have hok := (List.mem_filter.mp hiq).2
      rw [show unitPath (SEG_TEXT_ROOT ++ [jid]) si iq.1 "_transcript.txt" =
          (SEG_TEXT_ROOT ++ [jid]) ++ [segName si iq.1 "_transcript.txt"] from rfl,
        FS.read_write_ne _ _ (show manifestPath jid ≠
          (SEG_TEXT_ROOT ++ [jid]) ++ [segName si iq.1 "_transcript.txt"] from
          fun he => segtext_ne_logs he.symm)]
      exact (htextRB iq (List.mem_filter.mp hiq).1 hok).1
    · intro iq hiq
      have hok := (List.mem_filter.mp hiq).2
      rw [show unitPath (SEG_TEXT_ROOT ++ [jid]) si iq.1 "_review.txt" =
          (SEG_TEXT_ROOT ++ [jid]) ++ [segName si iq.1 "_review.txt"] from rfl,
        FS.read_write_ne _ _ (show manifestPath jid ≠
          (SEG_TEXT_ROOT ++ [jid]) ++ [segName si iq.1 "_review.txt"] from
          fun he => segtext_ne_logs he.symm)]
      exact (htextRB iq (List.mem_filter.mp hiq).1 hok).2.1
    · intro iq hiq
      have hok := (List.mem_filter.mp hiq).2
      rw [show unitPath (SEG_TEXT_ROOT ++ [jid]) si iq.1 "_revised.txt" =
          (SEG_TEXT_ROOT ++ [jid]) ++ [segName si iq.1 "_revised.txt"] from rfl,
        FS.read_write_ne _ _ (show manifestPath jid ≠
          (SEG_TEXT_ROOT ++ [jid]) ++ [segName si iq.1 "_revised.txt"] from
          fun he => segtext_ne_logs he.symm)]
      exact (htextRB iq (List.mem_filter.mp hiq).1 hok).2.2
  obtain ⟨hr1, hr2, hr3, hr4⟩ := postLoop_of_merged_ok env segDir jid pv si
    w.length (loopFs ctx fs0 lw)
    ((if hasP then [Ev.progress 0 w.length "開始處理"] else []) ++
      loopEvs ctx fs0 lw)
    (loopItems ctx fs0 lw) hM
  refine ⟨?_, ?_, ?_, ?_, ?_, ?_, ?_, ?_⟩
  · rw [hrun2, postLoop_items, hitems]
  · rw [hrun2, postLoop_events, loopEvs_noskip ctx lw fs0 hDist hF]
  · intro iq hiq
    rw [hrun2]
    rw [show unitPath (SEG_TEXT_ROOT ++ [jid]) si iq.1 "_meta.json" =
        (SEG_TEXT_ROOT ++ [jid]) ++ [segName si iq.1 "_meta.json"] from rfl]
    rw [postLoop_read_preserves env segDir jid pv si w.length _ _ _ _
      (fun name => fun he => segtext_ne_logs he)
      (fun name => fun he => segtext_ne_final he)]
    exact hmetaRB iq hiq
  · intro iq hiq hok
    rw [hrun2]
    rw [show unitPath (SEG_TEXT_ROOT ++ [jid]) si iq.1 "_transcript.txt" =
        (SEG_TEXT_ROOT ++ [jid]) ++ [segName si iq.1 "_transcript.txt"] from rfl,
      show unitPath (SEG_TEXT_ROOT ++ [jid]) si iq.1 "_review.txt" =
        (SEG_TEXT_ROOT ++ [jid]) ++ [segName si iq.1 "_review.txt"] from rfl,
      show unitPath (SEG_TEXT_ROOT ++ [jid]) si iq.1 "_revised.txt" =
        (SEG_TEXT_ROOT ++ [jid]) ++ [segName si iq.1 "_revised.txt"] from rfl]
    rw [postLoop_read_preserves env segDir jid pv si w.length _ _ _ _
        (fun name => fun he => segtext_ne_logs he)
        (fun name => fun he => segtext_ne_final he),
      postLoop_read_preserves env segDir jid pv si w.length _ _ _ _
        (fun name => fun he => segtext_ne_logs he)
        (fun name => fun he => segtext_ne_final he),
      postLoop_read_preserves env segDir jid pv si w.length _ _ _ _
        (fun name => fun he => segtext_ne_logs he)
        (fun name => fun he => segtext_ne_final he)]
    exact htextRB iq hiq hok
  · rw [hrun2]
    exact hr1
  · rw [hrun2]
    exact hr2
  · rw [hrun2]
    exact hr3
  · rw [hrun2]
    exact hr4

/-! ### Claims C2, C5, C7, C8, C9, C10 over fresh runs -/

/-- C2: if a stage capability raises while processing one unit, the
exception is caught at the unit boundary: the unit's manifest record has
`ok = false` with the captured error and is persisted at its checkpoint
path, the loop still produces one record per enumerated unit — each
determined solely by its own stage results — and the merged documents are
built from the successful units only, excluding the failed unit. -/
theorem claim_C2 (env : Env) (fs0 : FS) (segDir : FPath)
    (listing root : List String) (pv force : Bool) (si : Int)
    (maxseg : Option Int) (hasP : Bool)
    (onP : Nat → Nat → String → Except String Unit)
    (jid : String) (hjid : jid = job_id_from_dir (pathName segDir) env.now)
    (w : List String) (hw : w = windowOf (list_segments listing) si maxseg)
    (lw : List (Nat × String)) (hlw : lw = enumFrom 1 w)
    (ctx : LoopCtx) (hctx : ctx = mkCtx env pv force hasP onP segDir jid si w.length)
    (hne : (list_segments listing).isEmpty = false)
    (hF : Fresh ctx fs0 lw)
    (run : RunOut)
    (hrun : run = run_batch_process env fs0 segDir true listing root pv force si
      maxseg hasP onP)
    (jq : Nat × String) (e : String) (hmem : jq ∈ lw)
    (herr : stageResult env pv (segDir ++ [jq.2]) = .error e) :
    run.items = lw.map (procOutcome env pv segDir (SEG_TEXT_ROOT ++ [jid]) si) ∧
    run.items.length = w.length ∧
    procOutcome env pv segDir (SEG_TEXT_ROOT ++ [jid]) si jq =
      failMeta (SEG_TEXT_ROOT ++ [jid]) si jq.1 jq.2 e ∧
    (failMeta (SEG_TEXT_ROOT ++ [jid]) si jq.1 jq.2 e).ok = false ∧
    (failMeta (SEG_TEXT_ROOT ++ [jid]) si jq.1 jq.2 e).error = some e ∧
    FS.read run.fs (unitPath (SEG_TEXT_ROOT ++ [jid]) si jq.1 "_meta.json") =
      some (.meta (failMeta (SEG_TEXT_ROOT ++ [jid]) si jq.1 jq.2 e)) ∧
    FS.read run.fs ((FINAL_ROOT ++ [jid]) ++ ["transcript_revised.txt"]) =
      some (.text (mergedSpec env pv segDir (SEG_TEXT_ROOT ++ [jid]) si
        "REVISED SEG" "_revised.txt" (fun r => r.2.2) lw)) ∧
    jq ∉ lw.filter
      (fun iq => (procOutcome env pv segDir (SEG_TEXT_ROOT ++ [jid]) si iq).ok) := by
  obtain ⟨h1, h2, h3, h4, h5, h6, h7, h8⟩ := run_noskip env fs0 segDir listing
    root pv force si maxseg hasP onP jid hjid w hw lw hlw ctx hctx hne hF run hrun
  have hfail : procOutcome env pv segDir (SEG_TEXT_ROOT ++ [jid]) si jq =
      failMeta (SEG_TEXT_ROOT ++ [jid]) si jq.1 jq.2 e := procOutcome_of_err herr
  refine ⟨h1, ?_, hfail, rfl, rfl, ?_, h7, ?_⟩
  · rw [h1, List.length_map, hlw, enumFrom_length]
  · rw [h3 jq hmem, hfail]
  · intro hinf
    have := (List.mem_filter.mp hinf).2
    rw [hfail] at this
    exact absurd this (by simp [failMeta])

/-- The environment whose transcription fails exactly on `part_3.wav`. -/
def errOn3Env : Env :=
  { transcribe := fun p =>
      if pathName p = "part_3.wav" then .error "boom"
      else .ok ("T-" ++ pathName p),
    ai_precheck := fun t _ => .ok ("RV-" ++ t, "RD-" ++ t),
    ai_analyze := fun _ => "",
    jsonParse := fun _ => none,
    sha256 := fun _ => "h",
    now := "20250101_000000",
    created_at := "2025-01-01 00:00:00" }

/-- The five-unit listing. -/
def fiveParts : List String :=
  ["part_1.wav", "part_2.wav", "part_3.wav", "part_4.wav", "part_5.wav"]

/-- Witness for C2: five units, the transcription of unit 3 raises. -/
theorem claim_C2_witness :
    ((3, "part_3.wav") ∈ enumFrom 1 (windowOf (list_segments fiveParts) 1 none) ∧
      stageResult errOn3Env false (jobDir ++ ["part_3.wav"]) = .error "boom") ∧
    (run_batch_process errOn3Env [] jobDir true fiveParts [] false false 1 none
        false noProgress).items =
      (enumFrom 1 (windowOf (list_segments fiveParts) 1 none)).map
        (procOutcome errOn3Env false jobDir
          (SEG_TEXT_ROOT ++ ["job_20250101_000001"]) 1) :=
  ⟨⟨by decide, rfl⟩,
    (claim_C2 errOn3Env [] jobDir fiveParts [] false false 1 none false
      noProgress "job_20250101_000001" rfl _ rfl _ rfl _ rfl (by decide)
      (by decide) _ rfl (3, "part_3.wav") "boom" (by decide) rfl).1⟩

/-- C5: with a five-unit directory, `start_index = 3` and `max_segments = 2`
process exactly the third and fourth units of the sorted listing, and their
zero-padded unit ids are "03" and "04". -/
theorem claim_C5 (env : Env) (fs0 : FS) (segDir : FPath)
    (listing root : List String) (pv force : Bool) (hasP : Bool)
    (onP : Nat → Nat → String → Except String Unit)
    (f1 f2 f3 f4 f5 : String)
    (hseg : list_segments listing = [f1, f2, f3, f4, f5])
    (jid : String) (hjid : jid = job_id_from_dir (pathName segDir) env.now)
    (lw : List (Nat × String))
    (hlw : lw = enumFrom 1 (windowOf (list_segments listing) 3 (some 2)))
    (ctx : LoopCtx) (hctx : ctx = mkCtx env pv force hasP onP segDir jid 3
      (windowOf (list_segments listing) 3 (some 2)).length)
    (hF : Fresh ctx fs0 lw)
    (run : RunOut)
    (hrun : run = run_batch_process env fs0 segDir true listing root pv force 3
      (some 2) hasP onP) :
    windowOf (list_segments listing) 3 (some 2) = [f3, f4] ∧
    run.items.map (fun it => it.audio) = [f3, f4] ∧
    run.items.map (fun it => it.seg_id) = ["03", "04"] := by
  have hw2 : windowOf (list_segments listing) 3 (some 2) = [f3, f4] := by
    rw [windowOf, hseg]
    rfl
  have hne : (list_segments listing).isEmpty = false := by
    rw [hseg]
    rfl
  obtain ⟨h1, _, _, _, _, _, _, _⟩ := run_noskip env fs0 segDir listing root pv
    force 3 (some 2) hasP onP jid hjid _ rfl lw hlw ctx hctx hne hF run hrun
  have hlw2 : lw = [(1, f3), (2, f4)] := by
    rw [hlw, hw2]
    rfl
  refine ⟨hw2, ?_, ?_⟩
  · rw [h1, hlw2]
    simp [procOutcome_audio]
  · rw [h1, hlw2]
    simp only [List.map_cons, List.map_nil, procOutcome_seg_id]
    decide

/-- Witness for C5 over the concrete five-part listing. -/
theorem claim_C5_witness :
    list_segments fiveParts =
      ["part_1.wav", "part_2.wav", "part_3.wav", "part_4.wav", "part_5.wav"] ∧
    (windowOf (list_segments fiveParts) 3 (some 2) = ["part_3.wav", "part_4.wav"] ∧
      (run_batch_process okEnv [] jobDir true fiveParts [] false false 3 (some 2)
          false noProgress).items.map (fun it => it.audio) =
        ["part_3.wav", "part_4.wav"] ∧
      (run_batch_process okEnv [] jobDir true fiveParts [] false false 3 (some 2)
          false noProgress).items.map (fun it => it.seg_id) = ["03", "04"]) :=
  ⟨by decide,
    claim_C5 okEnv [] jobDir fiveParts [] false false false noProgress
      "part_1.wav" "part_2.wav" "part_3.wav" "part_4.wav" "part_5.wav"
      (by decide) "job_20250101_000001" rfl _ rfl _ rfl (by decide) _ rfl⟩

/-- C6: a resolved unit directory that exists but contains no recognized
unit file makes the run fail with the file-not-found (`JobNotFound`) error
before any output file is written; the message carries a hint naming the
canonical root exactly when stray recognized unit files exist there. -/
theorem claim_C6 (env : Env) (fs0 : FS) (segDir : FPath)
    (listing root : List String) (pv force : Bool) (si : Int)
    (maxseg : Option Int) (hasP : Bool)
    (onP : Nat → Nat → String → Except String Unit)
    (hempty : list_segments listing = [])
    (run : RunOut)
    (hrun : run = run_batch_process env fs0 segDir true listing root pv force si
      maxseg hasP onP) :
    run.ret = .error (.fileNotFound
      ("在 " ++ renderPath segDir ++ " 沒找到任何音檔" ++
        (if !(list_segments root).isEmpty then
          "；注意：在根目錄 " ++ renderPath SEG_AUDIO_ROOT ++ " 發現 " ++
            natRepr (list_segments root).length ++ " 個音檔，請確認是否放錯位置"
         else "") ++ "。")) ∧
    run.fs = fs0 ∧ run.events = [] ∧ run.items = [] := by
  have heq : run_batch_process env fs0 segDir true listing root pv force si
      maxseg hasP onP =
      run_batch_after_enum env fs0 segDir [] (list_segments root) pv force si
        maxseg hasP onP := by
    show run_batch_after_enum env fs0 segDir (list_segments listing)
      (list_segments root) pv force si maxseg hasP onP = _
    rw [hempty]
  rw [hrun, heq]
  exact ⟨rfl, rfl, rfl, rfl⟩

/-- Witness for C6: only an unrecognized file in the unit directory, one
stray recognized file in the canonical root (so the hint is rendered). -/
theorem claim_C6_witness :
    list_segments ["notes.txt"] = [] ∧
    ((run_batch_process okEnv [(["output", "marker"], FileContent.text "m")] jobDir
        true ["notes.txt"] ["part_1.wav"] false false 1 none false noProgress).ret =
      .error (.fileNotFound
        ("在 " ++ renderPath jobDir ++ " 沒找到任何音檔" ++
          (if !(list_segments ["part_1.wav"]).isEmpty then
            "；注意：在根目錄 " ++ renderPath SEG_AUDIO_ROOT ++ " 發現 " ++
              natRepr (list_segments ["part_1.wav"]).length ++
              " 個音檔，請確認是否放錯位置"
           else "") ++ "。")) ∧
      (run_batch_process okEnv [(["output", "marker"], FileContent.text "m")] jobDir
        true ["notes.txt"] ["part_1.wav"] false false 1 none false noProgress).fs =
        [(["output", "marker"], FileContent.text "m")] ∧
      (run_batch_process okEnv [(["output", "marker"], FileContent.text "m")] jobDir
        true ["notes.txt"] ["part_1.wav"] false false 1 none false noProgress).events = [] ∧
      (run_batch_process okEnv [(["output", "marker"], FileContent.text "m")] jobDir
        true ["notes.txt"] ["part_1.wav"] false false 1 none false noProgress).items = []) :=
  ⟨by decide,
    claim_C6 okEnv [(["output", "marker"], FileContent.text "m")] jobDir
      ["notes.txt"] ["part_1.wav"] false false 1 none false noProgress (by decide)
      _ rfl⟩

/-- C10: with `start_index ≤ 0` the processing window is clamped to begin at
the first enumerated unit (it equals the window for `start_index = 1`), yet
each unit id is still rendered from the unclamped `start_index + position - 1`,
so no processed unit's id equals its 1-based position in the sorted listing. -/
theorem claim_C10 (env : Env) (fs0 : FS) (segDir : FPath)
    (listing root : List String) (pv force : Bool) (si : Int)
    (maxseg : Option Int) (hasP : Bool)
    (onP : Nat → Nat → String → Except String Unit)
    (hsi : si ≤ 0)
    (jid : String) (hjid : jid = job_id_from_dir (pathName segDir) env.now)
    (lw : List (Nat × String))
    (hlw : lw = enumFrom 1 (windowOf (list_segments listing) si maxseg))
    (ctx : LoopCtx) (hctx : ctx = mkCtx env pv force hasP onP segDir jid si
      (windowOf (list_segments listing) si maxseg).length)
    (hne : (list_segments listing).isEmpty = false)
    (hF : Fresh ctx fs0 lw)
    (run : RunOut)
    (hrun : run = run_batch_process env fs0 segDir true listing root pv force si
      maxseg hasP onP) :
    windowOf (list_segments listing) si maxseg =
      windowOf (list_segments listing) 1 maxseg ∧
    run.items.map (fun it => it.audio) = windowOf (list_segments listing) si maxseg ∧
    run.items.map (fun it => it.seg_id) = lw.map (fun iq => fmt02 (si + iq.1 - 1)) ∧
    ∀ iq ∈ lw, fmt02 (si + iq.1 - 1) ≠ fmt02 iq.1 := by
  obtain ⟨h1, _, _, _, _, _, _, _⟩ := run_noskip env fs0 segDir listing root pv
    force si maxseg hasP onP jid hjid _ rfl lw hlw ctx hctx hne hF run hrun
  have h0 : (si - 1).toNat = 0 := Int.toNat_of_nonpos (by omega)
  refine ⟨?_, ?_, ?_, ?_⟩
  · simp only [windowOf, h0]
    cases maxseg <;> simp
  · rw [h1, List.map_map]
    have hc : ((fun it => it.audio) ∘
        procOutcome env pv segDir (SEG_TEXT_ROOT ++ [jid]) si) = Prod.snd :=
      funext fun iq => procOutcome_audio env pv segDir (SEG_TEXT_ROOT ++ [jid]) si iq
    rw [hc, hlw, enumFrom_map_snd]
  · rw [h1, List.map_map]
    exact List.map_congr_left fun iq _ =>
      procOutcome_seg_id env pv segDir (SEG_TEXT_ROOT ++ [jid]) si iq
  · intro iq _ heq
    have := fmt02_inj heq
    omega

/-- Witness for C10 at `start_index = 0` over five concrete units (the first
processed unit's id renders as "00"). -/
theorem claim_C10_witness :
    ((0 : Int) ≤ 0 ∧ (list_segments fiveParts).isEmpty = false) ∧
    (windowOf (list_segments fiveParts) 0 none =
        windowOf (list_segments fiveParts) 1 none ∧
      (run_batch_process okEnv [] jobDir true fiveParts [] false false 0 none
          false noProgress).items.map (fun it => it.audio) =
        windowOf (list_segments fiveParts) 0 none ∧
      (run_batch_process okEnv [] jobDir true fiveParts [] false false 0 none
          false noProgress).items.map (fun it => it.seg_id) =
        (enumFrom 1 (windowOf (list_segments fiveParts) 0 none)).map
          (fun iq => fmt02 (0 + iq.1 - 1)) ∧
      ∀ iq ∈ enumFrom 1 (windowOf (list_segments fiveParts) 0 none),
        fmt02 (0 + iq.1 - 1) ≠ fmt02 iq.1) :=
  ⟨⟨by decide, by decide⟩,
    claim_C10 okEnv [] jobDir fiveParts [] false false 0 none false noProgress
      (by decide) "job_20250101_000001" rfl _ rfl _ rfl (by decide) (by decide)
      _ rfl⟩

/-- C8 counterexample: in a concrete successful run the job writes
`seg_01_transcript.txt` (and no `seg_01_raw.txt`): the first artifact kind is
named `transcript`, not `raw` as the claim states. -/
theorem claim_C8_counterexample :
    FS.read (run_batch_process okEnv [] jobDir true ["part_1.wav"] [] false false
        1 none false noProgress).fs
      (SEG_TEXT_ROOT ++ ["job_20250101_000001"] ++ ["seg_01_raw.txt"]) = none ∧
    (FS.read (run_batch_process okEnv [] jobDir true ["part_1.wav"] [] false false
        1 none false noProgress).fs
      (SEG_TEXT_ROOT ++ ["job_20250101_000001"] ++
        ["seg_01_transcript.txt"])).isSome = true := by
  decide

/-- C8 amended: every processed unit's artifacts are persisted under
`{segments_text_root}/{job_id}/` as
`seg_{NN}_{transcript|review|revised}.txt` plus
`seg_{NN}_meta.json` (the text kinds only when the unit's stages
succeeded), where NN is the zero-padded absolute unit index. -/
theorem claim_C8_amended (env : Env) (fs0 : FS) (segDir : FPath)
    (listing root : List String) (pv force : Bool) (si : Int)
    (maxseg : Option Int) (hasP : Bool)
    (onP : Nat → Nat → String → Except String Unit)
    (jid : String) (hjid : jid = job_id_from_dir (pathName segDir) env.now)
    (lw : List (Nat × String))
    (hlw : lw = enumFrom 1 (windowOf (list_segments listing) si maxseg))
    (ctx : LoopCtx) (hctx : ctx = mkCtx env pv force hasP onP segDir jid si
      (windowOf (list_segments listing) si maxseg).length)
    (hne : (list_segments listing).isEmpty = false)
    (hF : Fresh ctx fs0 lw)
    (run : RunOut)
    (hrun : run = run_batch_process env fs0 segDir true listing root pv force si
      maxseg hasP onP) :
    ∀ iq ∈ lw,
      FS.read run.fs (SEG_TEXT_ROOT ++ [jid] ++
          ["seg_" ++ fmt02 (si + iq.1 - 1) ++ "_meta.json"]) =
        some (.meta (procOutcome env pv segDir (SEG_TEXT_ROOT ++ [jid]) si iq)) ∧
      ((procOutcome env pv segDir (SEG_TEXT_ROOT ++ [jid]) si iq).ok = true →
        FS.read run.fs (SEG_TEXT_ROOT ++ [jid] ++
            ["seg_" ++ fmt02 (si + iq.1 - 1) ++ "_transcript.txt"]) =
          some (.text (stageTexts env pv (segDir ++ [iq.2])).1) ∧
        FS.read run.fs (SEG_TEXT_ROOT ++ [jid] ++
            ["seg_" ++ fmt02 (si + iq.1 - 1) ++ "_review.txt"]) =
          some (.text (stageTexts env pv (segDir ++ [iq.2])).2.1) ∧
        FS.read run.fs (SEG_TEXT_ROOT ++ [jid] ++
            ["seg_" ++ fmt02 (si + iq.1 - 1) ++ "_revised.txt"]) =
          some (.text (stageTexts env pv (segDir ++ [iq.2])).2.2)) := by
  obtain ⟨_, _, h3, h4, _, _, _, _⟩ := run_noskip env fs0 segDir listing root pv
    force si maxseg hasP onP jid hjid _ rfl lw hlw ctx hctx hne hF run hrun
  exact fun iq hiq => ⟨h3 iq hiq, fun hok => h4 iq hiq hok⟩

/-- Witness for C8 amended over a concrete two-unit run. -/
theorem claim_C8_amended_witness :
    (list_segments ["part_1.wav", "part_2.wav"]).isEmpty = false ∧
    ∀ iq ∈ enumFrom 1 (windowOf (list_segments ["part_1.wav", "part_2.wav"]) 1 none),
      FS.read (run_batch_process okEnv [] jobDir true ["part_1.wav", "part_2.wav"]
          [] false false 1 none false noProgress).fs
        (SEG_TEXT_ROOT ++ ["job_20250101_000001"] ++
          ["seg_" ++ fmt02 (1 + iq.1 - 1) ++ "_meta.json"]) =
        some (.meta (procOutcome okEnv false jobDir
          (SEG_TEXT_ROOT ++ ["job_20250101_000001"]) 1 iq)) ∧
      ((procOutcome okEnv false jobDir
          (SEG_TEXT_ROOT ++ ["job_20250101_000001"]) 1 iq).ok = true →
        FS.read (run_batch_process okEnv [] jobDir true ["part_1.wav", "part_2.wav"]
            [] false false 1 none false noProgress).fs
          (SEG_TEXT_ROOT ++ ["job_20250101_000001"] ++
            ["seg_" ++ fmt02 (1 + iq.1 - 1) ++ "_transcript.txt"]) =
          some (.text (stageTexts okEnv false (jobDir ++ [iq.2])).1) ∧
        FS.read (run_batch_process okEnv [] jobDir true ["part_1.wav", "part_2.wav"]
            [] false false 1 none false noProgress).fs
          (SEG_TEXT_ROOT ++ ["job_20250101_000001"] ++
            ["seg_" ++ fmt02 (1 + iq.1 - 1) ++ "_review.txt"]) =
          some (.text (stageTexts okEnv false (jobDir ++ [iq.2])).2.1) ∧
        FS.read (run_batch_process okEnv [] jobDir true ["part_1.wav", "part_2.wav"]
            [] false false 1 none false noProgress).fs
          (SEG_TEXT_ROOT ++ ["job_20250101_000001"] ++
            ["seg_" ++ fmt02 (1 + iq.1 - 1) ++ "_revised.txt"]) =
          some (.text (stageTexts okEnv false (jobDir ++ [iq.2])).2.2)) :=
  ⟨by decide,
    claim_C8_amended okEnv [] jobDir ["part_1.wav", "part_2.wav"] [] false false
      1 none false noProgress "job_20250101_000001" rfl _ rfl _ rfl (by decide)
      (by decide) _ rfl⟩

/-- C7 counterexample: in a concrete successful run whose transcript text is
"hello", the merged transcript document is exactly one block whose header names
the per-unit artifact file `seg_01_transcript.txt`; the unit's source filename
`part_1.wav` occurs nowhere in the merged document, so no header identifies the
source filename as the claim states. -/
theorem claim_C7_counterexample :
    FS.read (run_batch_process ctEnv [] jobDir true ["part_1.wav"] [] false false
        1 none false noProgress).fs
      ((FINAL_ROOT ++ ["job_20250101_000001"]) ++ ["transcript.txt"]) =
      some (.text "=== TRANSCRIPT SEG 01 | seg_01_transcript.txt ===\nhello\n") ∧
    infixOfB "part_1.wav".data
      "=== TRANSCRIPT SEG 01 | seg_01_transcript.txt ===\nhello\n".data = false ∧
    infixOfB "seg_01_transcript.txt".data
      "=== TRANSCRIPT SEG 01 | seg_01_transcript.txt ===\nhello\n".data = true := by
  decide

/-- C7 amended: in every merged artifact, each successful unit's content block
is preceded by a delimiter header line identifying the block's sequence number
and the unit's per-unit artifact file name (`seg_NN_<kind>`, not the unit's
source filename), each block ends with a newline, and consecutive blocks are
joined with one more newline (hence separated by a blank line). -/
theorem claim_C7_amended (env : Env) (fs0 : FS) (segDir : FPath)
    (listing root : List String) (pv force : Bool) (si : Int)
    (maxseg : Option Int) (hasP : Bool)
    (onP : Nat → Nat → String → Except String Unit)
    (jid : String) (hjid : jid = job_id_from_dir (pathName segDir) env.now)
    (lw : List (Nat × String))
    (hlw : lw = enumFrom 1 (windowOf (list_segments listing) si maxseg))
    (ctx : LoopCtx) (hctx : ctx = mkCtx env pv force hasP onP segDir jid si
      (windowOf (list_segments listing) si maxseg).length)
    (hne : (list_segments listing).isEmpty = false)
    (hF : Fresh ctx fs0 lw)
    (run : RunOut)
    (hrun : run = run_batch_process env fs0 segDir true listing root pv force si
      maxseg hasP onP) :
    FS.read run.fs ((FINAL_ROOT ++ [jid]) ++ ["transcript.txt"]) =
      some (.text (String.intercalate "\n"
        ((enumFrom 1 (lw.filter fun iq =>
            (procOutcome env pv segDir (SEG_TEXT_ROOT ++ [jid]) si iq).ok)).map
          fun ip => "=== TRANSCRIPT SEG " ++ fmt02 ip.1 ++ " | " ++
            ("seg_" ++ fmt02 (si + ip.2.1 - 1) ++ "_transcript.txt") ++
            " ===\n" ++ (stageTexts env pv (segDir ++ [ip.2.2])).1 ++ "\n"))) ∧
    FS.read run.fs ((FINAL_ROOT ++ [jid]) ++ ["transcript_review.txt"]) =
      some (.text (String.intercalate "\n"
        ((enumFrom 1 (lw.filter fun iq =>
            (procOutcome env pv segDir (SEG_TEXT_ROOT ++ [jid]) si iq).ok)).map
          fun ip => "=== REVIEW SEG " ++ fmt02 ip.1 ++ " | " ++
            ("seg_" ++ fmt02 (si + ip.2.1 - 1) ++ "_review.txt") ++
            " ===\n" ++ (stageTexts env pv (segDir ++ [ip.2.2])).2.1 ++ "\n"))) ∧
    FS.read run.fs ((FINAL_ROOT ++ [jid]) ++ ["transcript_revised.txt"]) =
      some (.text (String.intercalate "\n"
        ((enumFrom 1 (lw.filter fun iq =>
            (procOutcome env pv segDir (SEG_TEXT_ROOT ++ [jid]) si iq).ok)).map
          fun ip => "=== REVISED SEG " ++ fmt02 ip.1 ++ " | " ++
            ("seg_" ++ fmt02 (si + ip.2.1 - 1) ++ "_revised.txt") ++
            " ===\n" ++ (stageTexts env pv (segDir ++ [ip.2.2])).2.2 ++ "\n"))) := by
  obtain ⟨_, _, _, _, h5, h6, h7, _⟩ := run_noskip env fs0 segDir listing root pv
    force si maxseg hasP onP jid hjid _ rfl lw hlw ctx hctx hne hF run hrun
  exact ⟨h5, h6, h7⟩

/-- Witness for C7 amended over a concrete two-unit run. -/
theorem claim_C7_amended_witness :
    (list_segments ["part_1.wav", "part_2.wav"]).isEmpty = false ∧
    FS.read (run_batch_process okEnv [] jobDir true ["part_1.wav", "part_2.wav"]
        [] false false 1 none false noProgress).fs
      ((FINAL_ROOT ++ ["job_20250101_000001"]) ++ ["transcript.txt"]) =
      some (.text (String.intercalate "\n"
        ((enumFrom 1 ((enumFrom 1 (windowOf
              (list_segments ["part_1.wav", "part_2.wav"]) 1 none)).filter
            fun iq => (procOutcome okEnv false jobDir
              (SEG_TEXT_ROOT ++ ["job_20250101_000001"]) 1 iq).ok)).map
          fun ip => "=== TRANSCRIPT SEG " ++ fmt02 ip.1 ++ " | " ++
            ("seg_" ++ fmt02 (1 + ip.2.1 - 1) ++ "_transcript.txt") ++
            " ===\n" ++ (stageTexts okEnv false (jobDir ++ [ip.2.2])).1 ++ "\n"))) :=
  ⟨by decide,
    (claim_C7_amended okEnv [] jobDir ["part_1.wav", "part_2.wav"] [] false false
      1 none false noProgress "job_20250101_000001" rfl _ rfl _ rfl (by decide)
      (by decide) _ rfl).1⟩

/-- C1 counterexample: with one recognized unit whose transcription fails
(zero successful units), the run does not complete with a returned document
path: `run_analysis` on the empty merged text raises `ValueError("無效文字內容")`,
which propagates as the run's result, and no final report file is written. -/
theorem claim_C1_counterexample :
    (run_batch_process failEnv [] jobDir true ["part_1.wav"] [] false false 1
        none false noProgress).ret = .error (.valueError "無效文字內容") ∧
    FS.read (run_batch_process failEnv [] jobDir true ["part_1.wav"] [] false
        false 1 none false noProgress).fs
      ((FINAL_ROOT ++ ["job_20250101_000001"]) ++ ["meeting_summary.docx"]) =
      none ∧
    (run_batch_process failEnv [] jobDir true ["part_1.wav"] [] false false 1
        none false noProgress).items.filter (fun it => it.ok) = [] ∧
    (list_segments ["part_1.wav"]).isEmpty = false :=
  ⟨rfl, by decide, rfl, by decide⟩

/-- C1 amended: with at least one recognized unit but zero successful units,
the three merged artifacts are still written (as empty documents) and the
manifest is persisted, but the run does not complete: it ends with
`ValueError("無效文字內容")` raised by the analysis stage on the empty merged
text, and none of the final report renderings is written. -/
theorem claim_C1_amended (env : Env) (fs0 : FS) (segDir : FPath)
    (listing root : List String) (pv force : Bool) (si : Int)
    (maxseg : Option Int) (hasP : Bool)
    (onP : Nat → Nat → String → Except String Unit)
    (jid : String) (hjid : jid = job_id_from_dir (pathName segDir) env.now)
    (lw : List (Nat × String))
    (hlw : lw = enumFrom 1 (windowOf (list_segments listing) si maxseg))
    (ctx : LoopCtx) (hctx : ctx = mkCtx env pv force hasP onP segDir jid si
      (windowOf (list_segments listing) si maxseg).length)
    (hne : (list_segments listing).isEmpty = false)
    (run : RunOut)
    (hrun : run = run_batch_process env fs0 segDir true listing root pv force si
      maxseg hasP onP)
    (hnone : run.items.filter (fun it => it.ok) = []) :
    run.ret = .error (.valueError "無效文字內容") ∧
    FS.read run.fs ((FINAL_ROOT ++ [jid]) ++ ["transcript.txt"]) =
      some (.text "") ∧
    FS.read run.fs ((FINAL_ROOT ++ [jid]) ++ ["transcript_review.txt"]) =
      some (.text "") ∧
    FS.read run.fs ((FINAL_ROOT ++ [jid]) ++ ["transcript_revised.txt"]) =
      some (.text "") ∧
    FS.read run.fs (manifestPath jid) = some (.manifestC (manifestOf env segDir
      jid pv si (windowOf (list_segments listing) si maxseg).length run.items)) ∧
    ∀ name ∈ (["meeting_summary.txt", "meeting_summary.docx",
        "meeting_summary.json"] : List String),
      FS.read run.fs ((FINAL_ROOT ++ [jid]) ++ [name]) =
        FS.read fs0 ((FINAL_ROOT ++ [jid]) ++ [name]) := by
  have hrun2 : run = run_batch_after_enum env fs0 segDir (list_segments listing)
      (list_segments root) pv force si maxseg hasP onP := hrun
  rw [after_enum_eq env fs0 segDir (list_segments listing) (list_segments root)
    pv force si maxseg hasP onP hne] at hrun2
  rw [← hjid, ← hlw, ← hctx] at hrun2
  have hitems : run.items = loopItems ctx fs0 lw := by
    rw [hrun2]
    exact postLoop_items _ _ _ _ _ _ _ _ _
  have hnone2 : (loopItems ctx fs0 lw).filter (fun it => it.ok) = [] := by
    rw [← hitems]
    exact hnone
  obtain ⟨p1, p2, p3, p4, p5, p6⟩ := postLoop_no_ok env segDir jid pv si
    (windowOf (list_segments listing) si maxseg).length (loopFs ctx fs0 lw)
    ((if hasP then [Ev.progress 0
        (windowOf (list_segments listing) si maxseg).length "開始處理"]
      else []) ++ loopEvs ctx fs0 lw)
    (loopItems ctx fs0 lw) hnone2
  refine ⟨?_, ?_, ?_, ?_, ?_, ?_⟩
  · rw [hrun2]
    exact p1
  · rw [hrun2]
    exact p2
  · rw [hrun2]
    exact p3
  · rw [hrun2]
    exact p4
  · rw [hitems, hrun2]
    exact p5
  · intro name hname
    rw [hrun2, p6 name hname]
    apply loopFs_read_preserves
    intro iq hiq k hk
    have hstd : ctx.segTextDir = SEG_TEXT_ROOT ++ [jid] := by rw [hctx]; rfl
    have hsi2 : ctx.start_index = si := by rw [hctx]; rfl
    rw [hstd, hsi2]
    exact fun he => segtext_ne_final he.symm

/-- Witness for C1 amended: one unit, always-failing transcription. -/
theorem claim_C1_amended_witness :
    ((list_segments ["part_1.wav"]).isEmpty = false ∧
      (run_batch_process failEnv [] jobDir true ["part_1.wav"] [] false false 1
          none false noProgress).items.filter (fun it => it.ok) = []) ∧
    ((run_batch_process failEnv [] jobDir true ["part_1.wav"] [] false false 1
        none false noProgress).ret = .error (.valueError "無效文字內容") ∧
      FS.read (run_batch_process failEnv [] jobDir true ["part_1.wav"] [] false
          false 1 none false noProgress).fs
        ((FINAL_ROOT ++ ["job_20250101_000001"]) ++ ["transcript.txt"]) =
        some (.text "") ∧
      FS.read (run_batch_process failEnv [] jobDir true ["part_1.wav"] [] false
          false 1 none false noProgress).fs
        ((FINAL_ROOT ++ ["job_20250101_000001"]) ++ ["transcript_review.txt"]) =
        some (.text "") ∧
      FS.read (run_batch_process failEnv [] jobDir true ["part_1.wav"] [] false
          false 1 none false noProgress).fs
        ((FINAL_ROOT ++ ["job_20250101_000001"]) ++ ["transcript_revised.txt"]) =
        some (.text "") ∧
      FS.read (run_batch_process failEnv [] jobDir true ["part_1.wav"] [] false
          false 1 none false noProgress).fs
        (manifestPath "job_20250101_000001") = some (.manifestC (manifestOf
          failEnv jobDir "job_20250101_000001" false 1
          (windowOf (list_segments ["part_1.wav"]) 1 none).length
          (run_batch_process failEnv [] jobDir true ["part_1.wav"] [] false false
            1 none false noProgress).items)) ∧
      ∀ name ∈ (["meeting_summary.txt", "meeting_summary.docx",
          "meeting_summary.json"] : List String),
        FS.read (run_batch_process failEnv [] jobDir true ["part_1.wav"] [] false
            false 1 none false noProgress).fs
          ((FINAL_ROOT ++ ["job_20250101_000001"]) ++ [name]) =
          FS.read ([] : FS) ((FINAL_ROOT ++ ["job_20250101_000001"]) ++ [name])) :=
  ⟨⟨by decide, rfl⟩,
    claim_C1_amended failEnv [] jobDir ["part_1.wav"] [] false false 1 none
      false noProgress "job_20250101_000001" rfl _ rfl _ rfl (by decide) _ rfl
      rfl⟩

/-- Replacing the progress callback changes nothing in one loop step: the
callback's result is discarded (`try ... except Exception: pass`). -/
theorem stepParts_cb (ctx : LoopCtx)
    (g : Nat → Nat → String → Except String Unit) (fs : FS) (iq : Nat × String) :
    stepParts { ctx with onProgress := g } fs iq = stepParts ctx fs iq := by
  obtain ⟨idx, fname⟩ := iq
  rfl

theorem loopFs_congr (c c' : LoopCtx)
    (h : ∀ (fs : FS) (iq : Nat × String), stepParts c' fs iq = stepParts c fs iq) :
    ∀ (l : List (Nat × String)) (fs : FS), loopFs c' fs l = loopFs c fs l
  | [], _ => rfl
  | iq :: rest, fs => by
    show loopFs c' (stepParts c' fs iq).1 rest = loopFs c (stepParts c fs iq).1 rest
    rw [h fs iq]
    exact loopFs_congr c c' h rest _

theorem loopEvs_congr (c c' : LoopCtx)
    (h : ∀ (fs : FS) (iq : Nat × String), stepParts c' fs iq = stepParts c fs iq) :
    ∀ (l : List (Nat × String)) (fs : FS), loopEvs c' fs l = loopEvs c fs l
  | [], _ => rfl
  | iq :: rest, fs => by
    show (stepParts c' fs iq).2.1 ++ loopEvs c' (stepParts c' fs iq).1 rest =
      (stepParts c fs iq).2.1 ++ loopEvs c (stepParts c fs iq).1 rest
    rw [h fs iq, loopEvs_congr c c' h rest]

theorem loopItems_congr (c c' : LoopCtx)
    (h : ∀ (fs : FS) (iq : Nat × String), stepParts c' fs iq = stepParts c fs iq) :
    ∀ (l : List (Nat × String)) (fs : FS), loopItems c' fs l = loopItems c fs l
  | [], _ => rfl
  | iq :: rest, fs => by
    show (stepParts c' fs iq).2.2 :: loopItems c' (stepParts c' fs iq).1 rest =
      (stepParts c fs iq).2.2 :: loopItems c (stepParts c fs iq).1 rest
    rw [h fs iq, loopItems_congr c c' h rest]

theorem after_enum_cb (env : Env) (fs0 : FS) (segDir : FPath)
    (all root : List String) (pv force : Bool) (si : Int) (maxseg : Option Int)
    (hasP : Bool) (f g : Nat → Nat → String → Except String Unit) :
    run_batch_after_enum env fs0 segDir all root pv force si maxseg hasP f =
      run_batch_after_enum env fs0 segDir all root pv force si maxseg hasP g := by
  cases all with
  | nil => rfl
  | cons a as =>
    have hE : (a :: as).isEmpty = false := rfl
    rw [after_enum_eq env fs0 segDir (a :: as) root pv force si maxseg hasP f hE,
      after_enum_eq env fs0 segDir (a :: as) root pv force si maxseg hasP g hE]
    have hstep : ∀ (fs : FS) (iq : Nat × String),
        stepParts (mkCtx env pv force hasP g segDir
          (job_id_from_dir (pathName segDir) env.now) si
          (windowOf (a :: as) si maxseg).length) fs iq =
        stepParts (mkCtx env pv force hasP f segDir
          (job_id_from_dir (pathName segDir) env.now) si
          (windowOf (a :: as) si maxseg).length) fs iq :=
      fun fs iq => stepParts_cb (mkCtx env pv force hasP f segDir
        (job_id_from_dir (pathName segDir) env.now) si
        (windowOf (a :: as) si maxseg).length) g fs iq
    rw [loopFs_congr _ _ hstep, loopEvs_congr _ _ hstep, loopItems_congr _ _ hstep]

/-- The whole run is invariant under the choice of progress callback. -/
theorem run_batch_cb (env : Env) (fs0 : FS) (segDir : FPath) (dx : Bool)
    (listing root : List String) (pv force : Bool) (si : Int)
    (maxseg : Option Int) (hasP : Bool)
    (f g : Nat → Nat → String → Except String Unit) :
    run_batch_process env fs0 segDir dx listing root pv force si maxseg hasP f =
      run_batch_process env fs0 segDir dx listing root pv force si maxseg hasP g := by
  cases dx with
  | false => rfl
  | true =>
    exact after_enum_cb env fs0 segDir (list_segments listing)
      (list_segments root) pv force si maxseg hasP f g

/-- C9: with a progress callback supplied, the run's outcome (file store,
events, items, result) is invariant under the callback — in particular one
whose result is an exception, since the result is discarded — and every unit's
event block begins with the unit start marker and ends with the post-unit
progress invocation `(idx, total, "完成第 <abs> 段")`, after the initial
`(0, total, "開始處理")` invocation that precedes the first unit. -/
theorem claim_C9 (env : Env) (fs0 : FS) (segDir : FPath)
    (listing root : List String) (pv force : Bool) (si : Int)
    (maxseg : Option Int) (onP : Nat → Nat → String → Except String Unit)
    (jid : String) (hjid : jid = job_id_from_dir (pathName segDir) env.now)
    (lw : List (Nat × String))
    (hlw : lw = enumFrom 1 (windowOf (list_segments listing) si maxseg))
    (ctx : LoopCtx) (hctx : ctx = mkCtx env pv force true onP segDir jid si
      (windowOf (list_segments listing) si maxseg).length)
    (hne : (list_segments listing).isEmpty = false)
    (hF : Fresh ctx fs0 lw)
    (run : RunOut)
    (hrun : run = run_batch_process env fs0 segDir true listing root pv force si
      maxseg true onP) :
    (∀ f g : Nat → Nat → String → Except String Unit,
      run_batch_process env fs0 segDir true listing root pv force si maxseg
        true f =
      run_batch_process env fs0 segDir true listing root pv force si maxseg
        true g) ∧
    run.events = Ev.progress 0
      (windowOf (list_segments listing) si maxseg).length "開始處理" ::
      flatEvs (procEvs ctx) lw ∧
    ∀ iq ∈ lw,
      (procEvs ctx iq).head? = some (.unitStart iq.1 (si + iq.1 - 1)) ∧
      (procEvs ctx iq).getLast? = some (.progress iq.1
        (windowOf (list_segments listing) si maxseg).length
        ("完成第 " ++ intRepr (si + iq.1 - 1) ++ " 段")) := by
  obtain ⟨_, h2, _, _, _, _, _, _⟩ := run_noskip env fs0 segDir listing root pv
    force si maxseg true onP jid hjid _ rfl lw hlw ctx hctx hne hF run hrun
  refine ⟨fun f g => run_batch_cb env fs0 segDir true listing root pv force si
    maxseg true f g, ?_, ?_⟩
  · exact h2
  · intro iq hiq
    have hhp : ctx.hasProgress = true := by rw [hctx]; rfl
    have hsi : ctx.start_index = si := by rw [hctx]; rfl
    have htot : ctx.total =
        (windowOf (list_segments listing) si maxseg).length := by rw [hctx]; rfl
    constructor
    · simp only [procEvs, hsi]
      rfl
    · simp only [procEvs, hsi, htot, hhp, if_true]
      cases htr : ctx.env.transcribe (ctx.segDir ++ [iq.2]) with
      | error e => rfl
      | ok t => rfl

/-- Witness for C9 over a concrete two-unit run. -/
theorem claim_C9_witness :
    ((list_segments ["part_1.wav", "part_2.wav"]).isEmpty = false) ∧
    ((∀ f g : Nat → Nat → String → Except String Unit,
      run_batch_process okEnv [] jobDir true ["part_1.wav", "part_2.wav"] []
        false false 1 none true f =
      run_batch_process okEnv [] jobDir true ["part_1.wav", "part_2.wav"] []
        false false 1 none true g) ∧
    (run_batch_process okEnv [] jobDir true ["part_1.wav", "part_2.wav"] []
        false false 1 none true noProgress).events = Ev.progress 0
      (windowOf (list_segments ["part_1.wav", "part_2.wav"]) 1 none).length
      "開始處理" ::
      flatEvs (procEvs (mkCtx okEnv false false true noProgress jobDir
        "job_20250101_000001" 1
        (windowOf (list_segments ["part_1.wav", "part_2.wav"]) 1 none).length))
        (enumFrom 1 (windowOf (list_segments ["part_1.wav", "part_2.wav"]) 1 none)) ∧
    ∀ iq ∈ enumFrom 1 (windowOf (list_segments ["part_1.wav", "part_2.wav"]) 1 none),
      (procEvs (mkCtx okEnv false false true noProgress jobDir
          "job_20250101_000001" 1
          (windowOf (list_segments ["part_1.wav", "part_2.wav"]) 1 none).length)
        iq).head? = some (.unitStart iq.1 (1 + iq.1 - 1)) ∧
      (procEvs (mkCtx okEnv false false true noProgress jobDir
          "job_20250101_000001" 1
          (windowOf (list_segments ["part_1.wav", "part_2.wav"]) 1 none).length)
        iq).getLast? = some (.progress iq.1
        (windowOf (list_segments ["part_1.wav", "part_2.wav"]) 1 none).length
        ("完成第 " ++ intRepr (1 + iq.1 - 1) ++ " 段"))) :=
  ⟨by decide,
    claim_C9 okEnv [] jobDir ["part_1.wav", "part_2.wav"] [] false false 1 none
      noProgress "job_20250101_000001" rfl _ rfl _ rfl (by decide) (by decide)
      _ rfl⟩

/-- Skipped units emit no capability events. -/
theorem skipEvs_no_cap (c : LoopCtx) :
    ∀ (l : List (Nat × String)) (e : Ev),
    e ∈ flatEvs (skipEvs c) l → isCap e = false
  | [], _, h => absurd h (List.not_mem_nil _)
  | iq :: rest, e, h => by
    rcases List.mem_append.mp h with h1 | h2
    · have h1 : e ∈ [Ev.unitStart iq.1 (c.start_index + iq.1 - 1)] ++
          (if c.hasProgress then
            [Ev.progress iq.1 c.total
              ("跳過第 " ++ intRepr (c.start_index + iq.1 - 1) ++ " 段")]
          else []) := h1
      rcases List.mem_append.mp h1 with ha | hb
      · rw [List.mem_singleton.mp ha]
        rfl
      · cases hhp : c.hasProgress with
        | false =>
          rw [hhp] at hb
          exact absurd hb (List.not_mem_nil _)
        | true =>
          rw [hhp] at hb
          rw [List.mem_singleton.mp hb]
          rfl
    · exact skipEvs_no_cap c rest e h2

/-- C3: a second run with `force = false` over the unchanged unit set — under
any environment, preview flag and callback — skips every unit whose four
artifacts already exist: its per-unit outcomes equal the first run's (each the
stored metadata record, all flagged ok), and it emits no capability events,
i.e. the stage capabilities are not re-invoked. -/
theorem claim_C3 (env env2 : Env) (fs0 : FS) (segDir : FPath)
    (listing root : List String) (pv pv2 force : Bool) (si : Int)
    (maxseg : Option Int) (hasP hasP2 : Bool)
    (onP onP2 : Nat → Nat → String → Except String Unit)
    (hpat : jobDirPat (pathName segDir) = true)
    (jid : String) (hjid : jid = pathName segDir)
    (lw : List (Nat × String))
    (hlw : lw = enumFrom 1 (windowOf (list_segments listing) si maxseg))
    (ctx : LoopCtx) (hctx : ctx = mkCtx env pv force hasP onP segDir jid si
      (windowOf (list_segments listing) si maxseg).length)
    (hne : (list_segments listing).isEmpty = false)
    (hF : Fresh ctx fs0 lw)
    (hOK : ∀ iq ∈ lw,
      (procOutcome env pv segDir (SEG_TEXT_ROOT ++ [jid]) si iq).ok = true)
    (run1 : RunOut)
    (hrun1 : run1 = run_batch_process env fs0 segDir true listing root pv force
      si maxseg hasP onP)
    (run2 : RunOut)
    (hrun2 : run2 = run_batch_process env2 run1.fs segDir true listing root pv2
      false si maxseg hasP2 onP2) :
    run2.items = run1.items ∧
    run1.items = lw.map (procOutcome env pv segDir (SEG_TEXT_ROOT ++ [jid]) si) ∧
    (∀ it ∈ run2.items, it.ok = true) ∧
    ∀ e ∈ run2.events, isCap e = false := by
  have hjid1 : jid = job_id_from_dir (pathName segDir) env.now := by
    rw [hjid]
    unfold job_id_from_dir
    rw [if_pos hpat]
  have hjid2 : jid = job_id_from_dir (pathName segDir) env2.now := by
    rw [hjid]
    unfold job_id_from_dir
    rw [if_pos hpat]
  obtain ⟨h1, _, h3, h4, _, _, _, _⟩ := run_noskip env fs0 segDir listing root
    pv force si maxseg hasP onP jid hjid1 _ rfl lw hlw ctx hctx hne hF run1 hrun1
  have hAll : ∀ iq ∈ lw,
      allFourExist run1.fs (SEG_TEXT_ROOT ++ [jid]) si iq.1 = true := by
    intro iq hiq
    have hm := h3 iq hiq
    obtain ⟨ht1, ht2, ht3⟩ := h4 iq hiq (hOK iq hiq)
    simp [allFourExist, FS.fexists, hm, ht1, ht2, ht3]
  have hr2 : run2 = run_batch_after_enum env2 run1.fs segDir
      (list_segments listing) (list_segments root) pv2 false si maxseg hasP2
      onP2 := hrun2
  rw [after_enum_eq env2 run1.fs segDir (list_segments listing)
    (list_segments root) pv2 false si maxseg hasP2 onP2 hne] at hr2
  rw [← hjid2, ← hlw] at hr2
  obtain ⟨hLfs, hLitems, hLevs⟩ := loop_allskip (mkCtx env2 pv2 false hasP2
    onP2 segDir jid si (windowOf (list_segments listing) si maxseg).length) rfl
    lw run1.fs (fun iq hiq => hAll iq hiq)
  have hi2 : run2.items =
      lw.map (fun iq => skipLoad run1.fs (SEG_TEXT_ROOT ++ [jid]) si iq.1 iq.2) := by
    rw [hr2, postLoop_items]
    exact hLitems
  have hmapeq : lw.map
      (fun iq => skipLoad run1.fs (SEG_TEXT_ROOT ++ [jid]) si iq.1 iq.2) =
      lw.map (procOutcome env pv segDir (SEG_TEXT_ROOT ++ [jid]) si) :=
    List.map_congr_left fun iq hiq => by
      unfold skipLoad
      rw [h3 iq hiq]
  have hi3 : run2.items =
      lw.map (procOutcome env pv segDir (SEG_TEXT_ROOT ++ [jid]) si) :=
    hi2.trans hmapeq
  have he2 : run2.events = (if hasP2 then [Ev.progress 0
      (windowOf (list_segments listing) si maxseg).length "開始處理"] else []) ++
      flatEvs (skipEvs (mkCtx env2 pv2 false hasP2 onP2 segDir jid si
        (windowOf (list_segments listing) si maxseg).length)) lw := by
    rw [hr2, postLoop_events, hLevs]
  refine ⟨hi3.trans h1.symm, h1, ?_, ?_⟩
  · intro it hit
    rw [hi3] at hit
    rcases List.mem_map.mp hit with ⟨iq, hiq, rfl⟩
    exact hOK iq hiq
  · intro e he
    rw [he2] at he
    rcases List.mem_append.mp he with h0 | hflat
    · have he' : e = Ev.progress 0
          (windowOf (list_segments listing) si maxseg).length "開始處理" := by
        cases hP2 : hasP2 with
        | false =>
          rw [hP2] at h0
          exact absurd h0 (List.not_mem_nil _)
        | true =>
          rw [hP2] at h0
          exact List.mem_singleton.mp h0
      rw [he']
      rfl
    · exact skipEvs_no_cap _ lw e hflat

/-- Witness for C3: first run under `okEnv`, second run under `failEnv` (whose
transcription always raises) still reproduces the first run's outcomes. -/
theorem claim_C3_witness :
    (jobDirPat (pathName jobDir) = true ∧
      (list_segments ["part_1.wav", "part_2.wav"]).isEmpty = false ∧
      (∀ iq ∈ enumFrom 1 (windowOf (list_segments ["part_1.wav", "part_2.wav"]) 1 none),
        (procOutcome okEnv false jobDir
          (SEG_TEXT_ROOT ++ ["job_20250101_000001"]) 1 iq).ok = true)) ∧
    ((run_batch_process failEnv (run_batch_process okEnv [] jobDir true
          ["part_1.wav", "part_2.wav"] [] false false 1 none false noProgress).fs
        jobDir true ["part_1.wav", "part_2.wav"] [] true false 1 none false
        noProgress).items =
      (run_batch_process okEnv [] jobDir true ["part_1.wav", "part_2.wav"] []
        false false 1 none false noProgress).items ∧
    (run_batch_process okEnv [] jobDir true ["part_1.wav", "part_2.wav"] []
        false false 1 none false noProgress).items =
      (enumFrom 1 (windowOf (list_segments ["part_1.wav", "part_2.wav"]) 1
        none)).map (procOutcome okEnv false jobDir
          (SEG_TEXT_ROOT ++ ["job_20250101_000001"]) 1) ∧
    (∀ it ∈ (run_batch_process failEnv (run_batch_process okEnv [] jobDir true
          ["part_1.wav", "part_2.wav"] [] false false 1 none false noProgress).fs
        jobDir true ["part_1.wav", "part_2.wav"] [] true false 1 none false
        noProgress).items, it.ok = true) ∧
    ∀ e ∈ (run_batch_process failEnv (run_batch_process okEnv [] jobDir true
          ["part_1.wav", "part_2.wav"] [] false false 1 none false noProgress).fs
        jobDir true ["part_1.wav", "part_2.wav"] [] true false 1 none false
        noProgress).events, isCap e = false) :=
  ⟨⟨by decide, by decide, by decide⟩,
    claim_C3 okEnv failEnv [] jobDir ["part_1.wav", "part_2.wav"] [] false true
      false 1 none false false noProgress noProgress (by decide)
      "job_20250101_000001" rfl _ rfl _ rfl (by decide) (by decide) (by decide)
      _ rfl _ rfl⟩

end Batch
